import Mathlib

/-!
Verification of the traffic-to-schema synthesis engine of `openApiStore.ts`
(class `OpenAPIStore`).

The definitions below are a shallow embedding of the store's code.
JavaScript values appearing in request/response bodies are modelled by `Js`
(numbers as exact rationals, which captures every whole-versus-fractional
distinction `Number.isInteger` can make; `undefined`, functions and symbols
do not occur in decoded JSON traffic and are not modelled).  Arrays and
object field lists are modelled by the mutually inductive cons-chains
`JsA` and `JsO`, which are lists in all but name; object fields keep
insertion order exactly as JavaScript objects do.

The subset of OpenAPI `SchemaObject` shapes the store produces or consumes
is modelled by `Schema`: a `type` plus optional `properties`, `items`,
`oneOf`, `example` and `description` fields.  Absent fields are `none`,
mirroring `JSON.stringify`, which distinguishes an absent field from an
empty one.  The `JSON.stringify`-based comparison of schemas used by the
source is modelled by structural equality (the serialisation is injective
on these objects).
-/

mutual
inductive Js where
  | null : Js
  | bool : Bool → Js
  | num : ℚ → Js
  | str : String → Js
  | arr : JsA → Js
  | obj : JsO → Js
inductive JsA where
  | nil : JsA
  | cons : Js → JsA → JsA
inductive JsO where
  | nil : JsO
  | cons : String → Js → JsO → JsO
end

mutual
def jsBeq : Js → Js → Bool
  | .null, .null => true
  | .bool a, .bool b => a == b
  | .num a, .num b => a == b
  | .str a, .str b => a == b
  | .arr a, .arr b => jsABeq a b
  | .obj a, .obj b => jsOBeq a b
  | .null, .bool _ | .null, .num _ | .null, .str _ | .null, .arr _ | .null, .obj _ => false
  | .bool _, .null | .bool _, .num _ | .bool _, .str _ | .bool _, .arr _ | .bool _, .obj _ => false
  | .num _, .null | .num _, .bool _ | .num _, .str _ | .num _, .arr _ | .num _, .obj _ => false
  | .str _, .null | .str _, .bool _ | .str _, .num _ | .str _, .arr _ | .str _, .obj _ => false
  | .arr _, .null | .arr _, .bool _ | .arr _, .num _ | .arr _, .str _ | .arr _, .obj _ => false
  | .obj _, .null | .obj _, .bool _ | .obj _, .num _ | .obj _, .str _ | .obj _, .arr _ => false
termination_by structural a => a
def jsABeq : JsA → JsA → Bool
  | .nil, .nil => true
  | .cons a as, .cons b bs => jsBeq a b && jsABeq as bs
  | .nil, .cons _ _ | .cons _ _, .nil => false
termination_by structural a => a
def jsOBeq : JsO → JsO → Bool
  | .nil, .nil => true
  | .cons k a as, .cons l b bs => k == l && (jsBeq a b && jsOBeq as bs)
  | .nil, .cons _ _ _ | .cons _ _ _, .nil => false
termination_by structural a => a
end

mutual
theorem jsBeq_iff : ∀ a b : Js, jsBeq a b = true ↔ a = b
  | .null, .null => by simp [jsBeq]
  | .bool a, .bool b => by simp [jsBeq]
  | .num a, .num b => by simp [jsBeq]
  | .str a, .str b => by simp [jsBeq]
  | .arr a, .arr b => by simp [jsBeq, jsABeq_iff a b]
  | .obj a, .obj b => by simp [jsBeq, jsOBeq_iff a b]
  | .null, .bool _ | .null, .num _ | .null, .str _ | .null, .arr _ | .null, .obj _ => by simp [jsBeq]
  | .bool _, .null | .bool _, .num _ | .bool _, .str _ | .bool _, .arr _ | .bool _, .obj _ => by simp [jsBeq]
  | .num _, .null | .num _, .bool _ | .num _, .str _ | .num _, .arr _ | .num _, .obj _ => by simp [jsBeq]
  | .str _, .null | .str _, .bool _ | .str _, .num _ | .str _, .arr _ | .str _, .obj _ => by simp [jsBeq]
  | .arr _, .null | .arr _, .bool _ | .arr _, .num _ | .arr _, .str _ | .arr _, .obj _ => by simp [jsBeq]
  | .obj _, .null | .obj _, .bool _ | .obj _, .num _ | .obj _, .str _ | .obj _, .arr _ => by simp [jsBeq]
theorem jsABeq_iff : ∀ a b : JsA, jsABeq a b = true ↔ a = b
  | .nil, .nil => by simp [jsABeq]
  | .cons a as, .cons b bs => by simp [jsABeq, jsBeq_iff a b, jsABeq_iff as bs]
  | .nil, .cons _ _ | .cons _ _, .nil => by simp [jsABeq]
theorem jsOBeq_iff : ∀ a b : JsO, jsOBeq a b = true ↔ a = b
  | .nil, .nil => by simp [jsOBeq]
  | .cons k a as, .cons l b bs => by simp [jsOBeq, jsBeq_iff a b, jsOBeq_iff as bs]
  | .nil, .cons _ _ _ | .cons _ _ _, .nil => by simp [jsOBeq]
end

instance : DecidableEq Js := fun a b => decidable_of_iff _ (jsBeq_iff a b)
instance : DecidableEq JsA := fun a b => decidable_of_iff _ (jsABeq_iff a b)
instance : DecidableEq JsO := fun a b => decidable_of_iff _ (jsOBeq_iff a b)

/-- The `type` field of the schema objects produced by the store. -/
inductive SchemaType where
  | tNull | tBoolean | tInteger | tNumber | tString | tArray | tObject
deriving DecidableEq

mutual
inductive Schema where
  | mk : SchemaType → Option SProps → Option Schema → Option SList →
      Option Js → Option String → Schema
inductive SProps where
  | nil : SProps
  | cons : String → Schema → SProps → SProps
inductive SList where
  | nil : SList
  | cons : Schema → SList → SList
end

mutual
def schemaBeq : Schema → Schema → Bool
  | .mk t1 p1 i1 o1 e1 d1, .mk t2 p2 i2 o2 e2 d2 =>
    decide (t1 = t2) && sPropsOBeq p1 p2 && sItemsOBeq i1 i2 && sListOBeq o1 o2 &&
      decide (e1 = e2) && decide (d1 = d2)
termination_by structural a => a
def sPropsOBeq : Option SProps → Option SProps → Bool
  | none, none => true
  | some a, some b => sPropsBeq a b
  | none, some _ | some _, none => false
termination_by structural a => a
def sItemsOBeq : Option Schema → Option Schema → Bool
  | none, none => true
  | some a, some b => schemaBeq a b
  | none, some _ | some _, none => false
termination_by structural a => a
def sListOBeq : Option SList → Option SList → Bool
  | none, none => true
  | some a, some b => sListBeq a b
  | none, some _ | some _, none => false
termination_by structural a => a
def sPropsBeq : SProps → SProps → Bool
  | .nil, .nil => true
  | .cons k a as, .cons l b bs => k == l && (schemaBeq a b && sPropsBeq as bs)
  | .nil, .cons _ _ _ | .cons _ _ _, .nil => false
termination_by structural a => a
def sListBeq : SList → SList → Bool
  | .nil, .nil => true
  | .cons a as, .cons b bs => schemaBeq a b && sListBeq as bs
  | .nil, .cons _ _ | .cons _ _, .nil => false
termination_by structural a => a
end

mutual
theorem schemaBeq_iff : ∀ a b : Schema, schemaBeq a b = true ↔ a = b
  | .mk t1 p1 i1 o1 e1 d1, .mk t2 p2 i2 o2 e2 d2 => by
      simp [schemaBeq, sPropsOBeq_iff p1 p2, sItemsOBeq_iff i1 i2, sListOBeq_iff o1 o2,
        and_assoc]
theorem sPropsOBeq_iff : ∀ a b : Option SProps, sPropsOBeq a b = true ↔ a = b
  | none, none => by simp [sPropsOBeq]
  | some a, some b => by simp [sPropsOBeq, sPropsBeq_iff a b]
  | none, some _ | some _, none => by simp [sPropsOBeq]
theorem sItemsOBeq_iff : ∀ a b : Option Schema, sItemsOBeq a b = true ↔ a = b
  | none, none => by simp [sItemsOBeq]
  | some a, some b => by simp [sItemsOBeq, schemaBeq_iff a b]
  | none, some _ | some _, none => by simp [sItemsOBeq]
theorem sListOBeq_iff : ∀ a b : Option SList, sListOBeq a b = true ↔ a = b
  | none, none => by simp [sListOBeq]
  | some a, some b => by simp [sListOBeq, sListBeq_iff a b]
  | none, some _ | some _, none => by simp [sListOBeq]
theorem sPropsBeq_iff : ∀ a b : SProps, sPropsBeq a b = true ↔ a = b
  | .nil, .nil => by simp [sPropsBeq]
  | .cons k a as, .cons l b bs => by simp [sPropsBeq, schemaBeq_iff a b, sPropsBeq_iff as bs]
  | .nil, .cons _ _ _ | .cons _ _ _, .nil => by simp [sPropsBeq]
theorem sListBeq_iff : ∀ a b : SList, sListBeq a b = true ↔ a = b
  | .nil, .nil => by simp [sListBeq]
  | .cons a as, .cons b bs => by simp [sListBeq, schemaBeq_iff a b, sListBeq_iff as bs]
  | .nil, .cons _ _ | .cons _ _, .nil => by simp [sListBeq]
end

instance : DecidableEq Schema := fun a b => decidable_of_iff _ (schemaBeq_iff a b)
instance : DecidableEq SProps := fun a b => decidable_of_iff _ (sPropsBeq_iff a b)
instance : DecidableEq SList := fun a b => decidable_of_iff _ (sListBeq_iff a b)

/-- The `type` field. -/
def Schema.type : Schema → SchemaType
  | .mk t _ _ _ _ _ => t

/-- The `properties` field. -/
def Schema.properties : Schema → Option SProps
  | .mk _ p _ _ _ _ => p

/-- The `items` field. -/
def Schema.items : Schema → Option Schema
  | .mk _ _ i _ _ _ => i

/-- The `oneOf` field. -/
def Schema.oneOf : Schema → Option SList
  | .mk _ _ _ o _ _ => o

/-- The `example` field. -/
def Schema.example : Schema → Option Js
  | .mk _ _ _ _ e _ => e

/-- The `description` field. -/
def Schema.description : Schema → Option String
  | .mk _ _ _ _ _ d => d

/-- `properties`, defaulting to the empty chain when absent (mirrors the
`if (schema.properties)` guard in `deepMergeSchemas`, which skips absent
property bags; iterating an empty bag is the same). -/
def Schema.propsD (s : Schema) : SProps :=
  (s.properties).getD .nil

example : (Schema.mk .tObject none none none none none).type = .tObject := rfl

/-! ### Sizes (used as fuel bounds for the satisfaction checker) -/

mutual
def jsSize : Js → Nat
  | .null | .bool _ | .num _ | .str _ => 1
  | .arr xs => 1 + jsASize xs
  | .obj fs => 1 + jsOSize fs
termination_by structural v => v
def jsASize : JsA → Nat
  | .nil => 1
  | .cons x rest => 1 + jsSize x + jsASize rest
termination_by structural l => l
def jsOSize : JsO → Nat
  | .nil => 1
  | .cons _ v rest => 1 + jsSize v + jsOSize rest
termination_by structural l => l
end

mutual
def schemaSize : Schema → Nat
  | .mk _ p i o _ _ => 1 + sPropsOSize p + sItemsOSize i + sListOSize o
termination_by structural s => s
def sPropsOSize : Option SProps → Nat
  | none => 1
  | some p => 1 + sPropsSize p
termination_by structural o => o
def sItemsOSize : Option Schema → Nat
  | none => 1
  | some s => 1 + schemaSize s
termination_by structural o => o
def sListOSize : Option SList → Nat
  | none => 1
  | some l => 1 + sListSize l
termination_by structural o => o
def sPropsSize : SProps → Nat
  | .nil => 1
  | .cons _ s rest => 1 + schemaSize s + sPropsSize rest
termination_by structural l => l
def sListSize : SList → Nat
  | .nil => 1
  | .cons s rest => 1 + schemaSize s + sListSize rest
termination_by structural l => l
end

/-! ### Generic chain helpers -/

/-- Build a `JsA` array chain from a Lean list (notation helper only). -/
def JsA.ofList : List Js → JsA
  | [] => .nil
  | x :: rest => .cons x (JsA.ofList rest)

/-- Build a `JsO` field chain from a Lean list (notation helper only). -/
def JsO.ofList : List (String × Js) → JsO
  | [] => .nil
  | (k, v) :: rest => .cons k v (JsO.ofList rest)

/-- Build an `SProps` chain from a Lean list (notation helper only). -/
def SProps.ofList : List (String × Schema) → SProps
  | [] => .nil
  | (k, s) :: rest => .cons k s (SProps.ofList rest)

/-- Build an `SList` chain from a Lean list. -/
def SList.ofList : List Schema → SList
  | [] => .nil
  | s :: rest => .cons s (SList.ofList rest)

/-- First schema of `P` stored under key `k` (JavaScript object indexing). -/
def SProps.lookup (k : String) : SProps → Option Schema
  | .nil => none
  | .cons k2 s rest => if k2 = k then some s else SProps.lookup k rest

/-- `P[k] = s` on a JavaScript object: overwrite the entry in place when the
key is present (keeping its position), append it otherwise. -/
def SProps.set (k : String) (s : Schema) : SProps → SProps
  | .nil => .cons k s .nil
  | .cons k2 s2 rest =>
      if k2 = k then .cons k2 s rest else .cons k2 s2 (SProps.set k s rest)

/-- Concatenation of field chains. -/
def SProps.append : SProps → SProps → SProps
  | .nil, q => q
  | .cons k s rest, q => .cons k s (SProps.append rest q)

/-- The keys of a field chain, in order. -/
def SProps.keys : SProps → List String
  | .nil => []
  | .cons k _ rest => k :: SProps.keys rest

/-- First value of field `k` in a JavaScript object. -/
def JsO.lookup (k : String) : JsO → Option Js
  | .nil => none
  | .cons k2 v rest => if k2 = k then some v else JsO.lookup k rest

/-- The keys of an object value, in order. -/
def JsO.keys : JsO → List String
  | .nil => []
  | .cons k _ rest => k :: JsO.keys rest

/-! ### Schema synthesis: `generateJsonSchema` (openApiStore.ts lines 191-311)

One schema node per decoded value, following the source's branch structure
exactly.  `typeof` distinctions are modelled by dedicated checks: the only
array members reaching the primitive branches are strings, numbers and
booleans. -/

/-- `typeof item === 'object' && item !== null && !Array.isArray(item)`. -/
def isPlainObject : Js → Bool
  | .obj _ => true
  | _ => false

/-- `typeof item === 'string' || typeof item === 'number' || typeof item === 'boolean'`. -/
def isPrimitive : Js → Bool
  | .str _ | .num _ | .bool _ => true
  | _ => false

/-- JavaScript `typeof` for the values modelled here (`typeof null` is
`"object"`, as in JavaScript). -/
def jsTypeof : Js → String
  | .null => "object"
  | .bool _ => "boolean"
  | .num _ => "number"
  | .str _ => "string"
  | .arr _ => "object"
  | .obj _ => "object"

/-- `obj.every(item => typeof item === 'object' && item !== null && !Array.isArray(item))`. -/
def JsA.allObjects : JsA → Bool
  | .nil => true
  | .cons x rest => isPlainObject x && rest.allObjects

/-- `obj.every(item => typeof item === 'string' || … 'number' || … 'boolean')`. -/
def JsA.allPrimitives : JsA → Bool
  | .nil => true
  | .cons x rest => isPrimitive x && rest.allPrimitives

/-- `obj.every(item => typeof item === firstItemType)`. -/
def JsA.allTypeof (t : String) : JsA → Bool
  | .nil => true
  | .cons x rest => (jsTypeof x == t) && rest.allTypeof t

/-- `obj.every(Number.isInteger)` (false on any non-number). -/
def JsA.allIntegers : JsA → Bool
  | .nil => true
  | .cons x rest =>
      (match x with
       | .num q => q.den == 1
       | _ => false) && rest.allIntegers

mutual
/-- `generateJsonSchema(obj)` from openApiStore.ts lines 191-311: synthesise
a schema from one decoded value.  The `JSON.stringify` equality used for the
per-item schema comparison is modelled by structural equality on `Schema`. -/
def generateJsonSchema : Js → Schema
  | .null => .mk .tNull none none none none none
  | .arr .nil =>
      .mk .tArray none (some (.mk .tObject none none none none none)) none none none
  | .arr (.cons h t) =>
      if (JsA.cons h t).allObjects then
        -- all items are objects: use the first object's schema for all items
        .mk .tArray none (some (generateJsonSchema h)) none (some (.arr (.cons h t))) none
      else if (JsA.cons h t).allPrimitives && (JsA.cons h t).allTypeof (jsTypeof h) then
        -- array of same-typed primitives
        if jsTypeof h == "number" then
          .mk .tArray none
            (some (.mk (if (JsA.cons h t).allIntegers then .tInteger else .tNumber)
              none none none none none))
            none (some (.arr (.cons h t))) none
        else
          .mk .tArray none
            (some (.mk (if jsTypeof h == "boolean" then .tBoolean else .tString)
              none none none none none))
            none (some (.arr (.cons h t))) none
      else
        -- per-item schemas: collapse when identical, otherwise wrap in oneOf
        if genEqHead (generateJsonSchema h) t then
          .mk .tArray none (some (generateJsonSchema h)) none (some (.arr (.cons h t))) none
        else
          .mk .tArray none
            (some (.mk .tObject none none (some (genSList (JsA.cons h t))) none none))
            none (some (.arr (.cons h t))) none
  | .obj fs => .mk .tObject (some (genProps fs)) none none (some (.obj fs)) none
  | .num q =>
      if q.den == 1 then .mk .tInteger none none none (some (.num q)) none
      else .mk .tNumber none none none (some (.num q)) none
  | .str s => .mk .tString none none none (some (.str s)) none
  | .bool b => .mk .tBoolean none none none (some (.bool b)) none
termination_by structural v => v
/-- `obj.map(item => this.generateJsonSchema(item))`. -/
def genSList : JsA → SList
  | .nil => .nil
  | .cons x rest => .cons (generateJsonSchema x) (genSList rest)
termination_by structural l => l
/-- `itemSchemas.every(s => JSON.stringify(s) === JSON.stringify(itemSchemas[0]))`
(the head's comparison with itself always holds, so only the tail is scanned). -/
def genEqHead (s0 : Schema) : JsA → Bool
  | .nil => true
  | .cons x rest => (generateJsonSchema x == s0) && genEqHead s0 rest
termination_by structural l => l
/-- Per-property recursion of the object branch. -/
def genProps : JsO → SProps
  | .nil => .nil
  | .cons k v rest => .cons k (generateJsonSchema v) (genProps rest)
termination_by structural l => l
end

example :
    generateJsonSchema (.obj (.cons "a" (.num 1) .nil)) =
      .mk .tObject (some (.cons "a" (.mk .tInteger none none none (some (.num 1)) none) .nil))
        none none (some (.obj (.cons "a" (.num 1) .nil))) none := by decide

/-! ### Schema satisfaction

Standard JSON-Schema semantics for the keywords the store emits, all read
conjunctively (as in OpenAPI 3.1 / JSON Schema 2020-12): `type` constrains
the value's kind (`integer` accepts exactly the whole numbers); `properties`
constrains those object fields whose names it mentions (it does not require
them); `items` constrains every array member; `oneOf` requires exactly one
disjunct to be satisfied.  `example` and `description` are annotations and
constrain nothing.  The checker is fueled so that it stays kernel-computable;
`satisfies` supplies enough fuel for the recursion to run to completion. -/

/-- The `type` keyword test. -/
def typeOk : SchemaType → Js → Bool
  | .tNull, .null => true
  | .tBoolean, .bool _ => true
  | .tInteger, .num q => q.den == 1
  | .tNumber, .num _ => true
  | .tString, .str _ => true
  | .tArray, .arr _ => true
  | .tObject, .obj _ => true
  | _, _ => false

mutual
def satF : Nat → Schema → Js → Bool
  | 0, _, _ => false
  | fuel + 1, .mk t props items oneOf _ _, v =>
      typeOk t v &&
      (match props, v with
       | some P, .obj F => satPropsF fuel P F
       | _, _ => true) &&
      (match items, v with
       | some si, .arr xs => satItemsF fuel si xs
       | _, _ => true) &&
      (match oneOf with
       | some l => satCountF fuel l v == 1
       | none => true)
termination_by structural fuel => fuel
def satPropsF : Nat → SProps → JsO → Bool
  | 0, _, _ => false
  | _ + 1, .nil, _ => true
  | fuel + 1, .cons k s rest, F => satKeyF fuel k s F && satPropsF fuel rest F
termination_by structural fuel => fuel
def satKeyF : Nat → String → Schema → JsO → Bool
  | 0, _, _, _ => false
  | _ + 1, _, _, .nil => true
  | fuel + 1, k, s, .cons k2 v rest =>
      (if k2 = k then satF fuel s v else true) && satKeyF fuel k s rest
termination_by structural fuel => fuel
def satItemsF : Nat → Schema → JsA → Bool
  | 0, _, _ => false
  | _ + 1, _, .nil => true
  | fuel + 1, s, .cons x rest => satF fuel s x && satItemsF fuel s rest
termination_by structural fuel => fuel
def satCountF : Nat → SList → Js → Nat
  | 0, _, _ => 0
  | _ + 1, .nil, _ => 0
  | fuel + 1, .cons s rest, v => (if satF fuel s v then 1 else 0) + satCountF fuel rest v
termination_by structural fuel => fuel
end

/-- `satisfies s v`: the value `v` conforms to schema `s`. -/
def satisfies (s : Schema) (v : Js) : Bool :=
  satF (schemaSize s + jsSize v) s v

/-! ### Schema merging: `deepMergeSchemas` (openApiStore.ts lines 147-189)

The source function recurses through `this.deepMergeSchemas([merged, value])`
when both object bags mention the same property, so every recursive call is
binary.  `dm2F` is that binary merge, fueled (the recursion is not
structural: the first argument of the inner call is a previously merged
result); `deepMergeTwo` supplies fuel that is proved sufficient below, and
`deepMergeSchemas` is the n-ary entry point. -/

-- Property-nesting depth, used to compute sufficient merge fuel.
mutual
def pdepthF : Nat → Schema → Nat
  | 0, _ => 0
  | fuel + 1, s => 1 + pdPropsF fuel s.propsD
termination_by structural fuel => fuel
def pdPropsF : Nat → SProps → Nat
  | 0, _ => 0
  | _ + 1, .nil => 0
  | fuel + 1, .cons _ v rest => max (pdepthF fuel v) (pdPropsF fuel rest)
termination_by structural fuel => fuel
end

/-- Property-nesting depth of a schema. -/
def pdepth (s : Schema) : Nat := pdepthF (schemaSize s) s

/-- The merged-properties loop of `deepMergeSchemas` (lines 156-167): walk
the pending `(key, value)` pairs of all the schemas being merged, inserting
a pair whose key is new and merging (via `dm`) into the existing entry a
pair whose key was already seen.  JavaScript object assignment appends new
keys at the end and updates existing keys in place. -/
def mlF (dm : Schema → Schema → Schema) : SProps → SProps → SProps
  | .nil, acc => acc
  | .cons k v rest, acc =>
      match acc.lookup k with
      | none => mlF dm rest (acc.append (.cons k v .nil))
      | some old => mlF dm rest (acc.set k (dm old v))

/-- Fueled binary `deepMergeSchemas([x, y])`. -/
def dm2F : Nat → Schema → Schema → Schema
  | 0, x, _ => x
  | fuel + 1, x, y =>
      if x.type = .tObject ∧ y.type = .tObject then
        .mk .tObject (some (mlF (dm2F fuel) (x.propsD.append y.propsD) .nil)) none none none none
      else if x = y then x
      else .mk .tObject none none (some (.cons x (.cons y .nil))) none none
termination_by structural fuel => fuel

/-- `deepMergeSchemas([x, y])`, with fuel sufficient for the recursion. -/
def deepMergeTwo (x y : Schema) : Schema :=
  dm2F (2 * max (pdepth x) (pdepth y)) x y

/-- All property pairs of the schemas being merged, in iteration order. -/
def propsConcat : List Schema → SProps
  | [] => .nil
  | s :: rest => s.propsD.append (propsConcat rest)

/-- `filter((schema, i, self) => i === self.findIndex(s => stringify(s) === stringify(schema)))`:
keep the first occurrence of each structurally distinct schema. -/
def dedupe (ss : List Schema) : List Schema :=
  ss.foldl (fun acc s => if s ∈ acc then acc else acc ++ [s]) []

/-- `deepMergeSchemas(schemas)` from openApiStore.ts lines 147-189. -/
def deepMergeSchemas : List Schema → Schema
  | [] => .mk .tObject none none none none none
  | [s] => s
  | s1 :: s2 :: rest =>
      if (s1 :: s2 :: rest).all (fun s => s.type == .tObject) then
        .mk .tObject (some (mlF deepMergeTwo (propsConcat (s1 :: s2 :: rest)) .nil))
          none none none none
      else
        match dedupe (s1 :: s2 :: rest) with
        | [u] => u
        | us => .mk .tObject none none (some (SList.ofList us)) none none

-- Sanity checks on concrete data (kernel-evaluated).
example :
    satisfies (generateJsonSchema (.obj (.cons "a" (.num 1) .nil)))
      (.obj (.cons "a" (.num 1) .nil)) = true := by decide

-- First-member sampling is unsound when members disagree on a property type.
example :
    satisfies
      (generateJsonSchema
        (.arr (.cons (.obj (.cons "a" (.num 1) .nil))
          (.cons (.obj (.cons "a" (.str "x") .nil)) .nil))))
      (.arr (.cons (.obj (.cons "a" (.num 1) .nil))
        (.cons (.obj (.cons "a" (.str "x") .nil)) .nil))) = false := by decide

-- Merging `{type:'object'}` with itself materialises an empty `properties`.
example :
    deepMergeSchemas [.mk .tObject none none none none none, .mk .tObject none none none none none]
      = .mk .tObject (some .nil) none none none none := by decide

example :
    deepMergeSchemas [.mk .tObject none none none none none] =
      .mk .tObject none none none none none := by decide

/-! ### Path templating (openApiStore.ts line 449)

`path.replace(/\/(\d+)/g, '/{id}').replace(/:(\w+)/g, '{$1}')` as two
left-to-right scanners with exactly the global-regex semantics: find the
leftmost match, emit the replacement, continue after the matched text. -/

/-- Scanner state for the `/\/(\d+)/g → '/{id}'` replacement. -/
inductive NrState where
  | normal | slash | digits

/-- Replace every `/`-plus-digit-run by `/{id}` (the numeric-segment rule;
greedy digit run, continue scanning after the run). -/
def nrGo : NrState → List Char → List Char
  | .normal, [] => []
  | .normal, c :: rest => if c = '/' then nrGo .slash rest else c :: nrGo .normal rest
  | .slash, [] => ['/']
  | .slash, c :: rest =>
      if c.isDigit then '/' :: '{' :: 'i' :: 'd' :: '}' :: nrGo .digits rest
      else if c = '/' then '/' :: nrGo .slash rest
      else '/' :: c :: nrGo .normal rest
  | .digits, [] => []
  | .digits, c :: rest =>
      if c.isDigit then nrGo .digits rest
      else if c = '/' then nrGo .slash rest
      else c :: nrGo .normal rest
termination_by structural _s l => l

/-- `\w`: ASCII letter, digit or underscore. -/
def isWordChar (c : Char) : Bool := c.isAlpha || c.isDigit || c = '_'

/-- Replace every `:`-plus-word-run by `{run}` (Express-style parameter
markers; the Bool is true while inside a word run whose `{` has been
emitted). -/
def crGo : Bool → List Char → List Char
  | false, [] => []
  | false, ':' :: rest =>
      (match rest with
       | [] => [':']
       | c :: rest2 =>
          if isWordChar c then '{' :: c :: crGo true rest2
          else ':' :: crGo false (c :: rest2))
  | false, c :: rest => c :: crGo false rest
  | true, [] => ['}']
  | true, c :: rest =>
      if isWordChar c then c :: crGo true rest
      else if c = ':' then
        (match rest with
         | [] => ['}', ':']
         | d :: rest2 =>
            if isWordChar d then '}' :: '{' :: d :: crGo true rest2
            else '}' :: ':' :: crGo false (d :: rest2))
      else '}' :: c :: crGo false rest
termination_by structural _b l => l

/-- `path.replace(/\/(\d+)/g, '/{id}').replace(/:(\w+)/g, '{$1}')`. -/
def templatePath (p : String) : String :=
  String.mk (crGo false (nrGo .normal p.data))

example : templatePath "/users/123" = "/users/" ++ "{id}" := by decide
example : templatePath "/users/456" = "/users/" ++ "{id}" := by decide
example : templatePath "/users/:name" = "/users/" ++ "{name}" := by decide

/-- `openApiPath.match(/\{(\w+)\}/g)` followed by `slice(1, -1)`: the names
of the `{word}` groups of a templated path, in order.  The accumulator holds
the reversed word run after an opening brace. -/
def epGo : Option (List Char) → List Char → List String
  | none, [] => []
  | none, c :: rest => if c = '{' then epGo (some []) rest else epGo none rest
  | some _, [] => []
  | some w, c :: rest =>
      if isWordChar c then epGo (some (c :: w)) rest
      else if c = '}' then
        (if w.isEmpty then epGo none rest
         else String.mk w.reverse :: epGo none rest)
      else if c = '{' then epGo (some []) rest
      else epGo none rest
termination_by structural _w l => l

example : epGo none ("/users/" ++ "{id}" ++ "/x/" ++ "{name}").data = ["id", "name"] := by decide

/-! ### JavaScript helpers -/

/-- JavaScript truthiness of a value (NaN is not modelled). -/
def jsTruthy : Js → Bool
  | .null => false
  | .bool b => b
  | .num q => q != 0
  | .str s => s != ""
  | .arr _ => true
  | .obj _ => true

/-- `toLowerCase()` (ASCII, as in all header/method strings handled here). -/
def strLower (s : String) : String := String.mk (s.data.map Char.toLower)

/-- `toUpperCase()` (ASCII). -/
def strUpper (s : String) : String := String.mk (s.data.map Char.toUpper)

/-- `a || b` on strings (the empty string is falsy). -/
def strOr (a b : String) : String := if a = "" then b else a

/-- `a || b` where `a` may be absent. -/
def optStrOr : Option String → String → String
  | none, d => d
  | some s, d => if s = "" then d else s

/-- JSON string escaping as performed by `JSON.stringify`. -/
def jsonEscChar (c : Char) : String :=
  if c = '"' then "\\\""
  else if c = '\\' then "\\\\"
  else if c = '\n' then "\\n"
  else if c = '\r' then "\\r"
  else if c = '\t' then "\\t"
  else if c.val < 32 then
    "\\u00" ++ String.mk [Nat.digitChar (c.val.toNat / 16), Nat.digitChar (c.val.toNat % 16)]
  else String.mk [c]

/-- A JSON string literal. -/
def jsonQuote (s : String) : String :=
  "\"" ++ String.join (s.data.map jsonEscChar) ++ "\""

/-- Rendering of a number by `JSON.stringify`.  Exact double-to-shortest
-string formatting is outside this model; the store's claims only ever
compare rendered texts for equality, and all concrete data in them is
whole-valued, where this rendering and JavaScript's agree. -/
def ratToJson (q : ℚ) : String :=
  if q.den = 1 then toString q.num else toString q.num ++ "/" ++ toString q.den

mutual
/-- `JSON.stringify` (no spacing), for the value shapes modelled here. -/
def jsStringify : Js → String
  | .null => "null"
  | .bool true => "true"
  | .bool false => "false"
  | .num q => ratToJson q
  | .str s => jsonQuote s
  | .arr xs => "[" ++ stringifyA xs ++ "]"
  | .obj fs => "\x7b" ++ stringifyO fs ++ "\x7d"
termination_by structural v => v
def stringifyA : JsA → String
  | .nil => ""
  | .cons x .nil => jsStringify x
  | .cons x (.cons y rest) => jsStringify x ++ "," ++ stringifyA (.cons y rest)
termination_by structural l => l
def stringifyO : JsO → String
  | .nil => ""
  | .cons k v .nil => jsonQuote k ++ ":" ++ jsStringify v
  | .cons k v (.cons k2 v2 rest) =>
      jsonQuote k ++ ":" ++ jsStringify v ++ "," ++ stringifyO (.cons k2 v2 rest)
termination_by structural l => l
end

example : jsStringify (.obj (.cons "a" (.num 1) .nil)) = "\x7b\"a\":1\x7d" := by decide

/-! ### Association-list maps

`Map`/plain-object stores: first-match lookup; `set` updates an existing key
in place (keeping its position) and appends a new key at the end, exactly as
`Map.set` and JavaScript object assignment do. -/

def alGet {α β : Type} [DecidableEq α] (k : α) : List (α × β) → Option β
  | [] => none
  | (k2, v) :: rest => if k2 = k then some v else alGet k rest

def alSet {α β : Type} [DecidableEq α] (k : α) (v : β) : List (α × β) → List (α × β)
  | [] => [(k, v)]
  | (k2, v2) :: rest => if k2 = k then (k2, v) :: rest else (k2, v2) :: alSet k v rest

/-! ### Security schemes (openApiStore.ts lines 7-32 and 390-440) -/

/-- The four supported values of `SecurityInfo.type`. -/
inductive SecType where
  | apiKey | oauth2 | http | openIdConnect
deriving DecidableEq

/-- `SecurityInfo['flows']['implicit']`. -/
structure OAuthFlowImplicit where
  authorizationUrl : String
  scopes : List (String × String)
deriving DecidableEq

/-- `SecurityInfo['flows']['authorizationCode']`. -/
structure OAuthFlowAuthCode where
  authorizationUrl : String
  tokenUrl : String
  scopes : List (String × String)
deriving DecidableEq

/-- `SecurityInfo['flows']['clientCredentials']`. -/
structure OAuthFlowClientCred where
  tokenUrl : String
  scopes : List (String × String)
deriving DecidableEq

/-- `SecurityInfo['flows']['password']`. -/
structure OAuthFlowPassword where
  tokenUrl : String
  scopes : List (String × String)
deriving DecidableEq

/-- `SecurityInfo['flows']`. -/
structure OAuthFlows where
  implicit : Option OAuthFlowImplicit
  authorizationCode : Option OAuthFlowAuthCode
  clientCredentials : Option OAuthFlowClientCred
  password : Option OAuthFlowPassword
deriving DecidableEq

/-- The `SecurityInfo` hint handed to `recordEndpoint`. -/
structure SecurityInfo where
  type : SecType
  name : Option String
  inLoc : Option String
  scheme : Option String
  flows : Option OAuthFlows
  openIdConnectUrl : Option String
deriving DecidableEq

/-- A stored `components.securitySchemes` entry. -/
inductive SecScheme where
  | apiKey (name : String) (inLoc : String)
  | oauth2 (flows : OAuthFlows)
  | http (scheme : String)
  | openIdConnect (url : String)
deriving DecidableEq

/-- The default OAuth flows object (lines 407-415). -/
def defaultFlows : OAuthFlows :=
  ⟨some ⟨"https://example.com/oauth/authorize",
      [("read", "Read access"), ("write", "Write access")]⟩, none, none, none⟩

/-- `'apiKey_'` / `${security.type}_` (line 392): the canonical scheme name,
derived from the hint's kind alone. -/
def canonicalSchemeName : SecType → String
  | .apiKey => "apiKey_"
  | .oauth2 => "oauth2_"
  | .http => "http_"
  | .openIdConnect => "openIdConnect_"

/-- The scheme definition built by `addSecurityScheme`'s switch (lines
395-436); `||` defaults use string falsiness, an object (`flows`) is always
truthy when present. -/
def deriveScheme (s : SecurityInfo) : SecScheme :=
  match s.type with
  | .apiKey => .apiKey (optStrOr s.name "x-api-key") (optStrOr s.inLoc "header")
  | .oauth2 => .oauth2 (s.flows.getD defaultFlows)
  | .http => .http (optStrOr s.scheme "bearer")
  | .openIdConnect =>
      .openIdConnect
        (optStrOr s.openIdConnectUrl "https://example.com/.well-known/openid-configuration")

/-- `addSecurityScheme(security)` (lines 390-440): store the derived scheme
under the canonical name and return that name.  The `default:` throw is
unreachable here because `SecType` is the closed set of supported kinds. -/
def addSecurityScheme (s : SecurityInfo) (m : List (String × SecScheme)) :
    String × List (String × SecScheme) :=
  (canonicalSchemeName s.type, alSet (canonicalSchemeName s.type) (deriveScheme s) m)

/-- `request.security.map(security => ({[this.addSecurityScheme(security)]: []}))`:
collect the scheme references in order while updating the scheme map. -/
def addSecuritySchemesFold :
    List SecurityInfo → List (String × SecScheme) → List String × List (String × SecScheme)
  | [], m => ([], m)
  | s :: rest, m =>
      let r := addSecurityScheme s m
      let r2 := addSecuritySchemesFold rest r.2
      (r.1 :: r2.1, r2.2)

/-! ### Store state (openApiStore.ts lines 34-145) -/

/-- One recorded parameter: the stored schema is always `{type: 'string'}`,
plus `required: true` for path parameters, `required: false` and an example
for header parameters. -/
structure ParamInfo where
  name : String
  inLoc : String
  required : Option Bool
  exampleVal : Option String
deriving DecidableEq

/-- One `responses[status]` entry.  A stored response header renders as
`{schema: {type: 'string', example: value}, description: 'Response header '
+ name}`; both are determined by the (name, value) pair kept here. -/
structure ResponseObj where
  description : String
  content : List (String × Schema)
  headers : Option (List (String × String))
deriving DecidableEq

/-- The `requestBody` object. -/
structure RequestBodyObj where
  required : Bool
  content : List (String × Schema)
deriving DecidableEq

/-- `EndpointInfo` (lines 50-59); `security` holds the scheme-name
references (each rendered as `{name: []}` with an empty scope list). -/
structure EndpointInfo where
  path : String
  method : String
  responses : List (Nat × ResponseObj)
  parameters : List ParamInfo
  requestBody : Option RequestBodyObj
  security : Option (List String)
deriving DecidableEq

/-- `RawResponseData` (lines 97-103).  The source stores
`rawData.toString('base64')` and later decodes with
`Buffer.from(rawData, 'base64')`; since that round-trips, the byte content
is carried directly. -/
structure RawResponseData where
  rawData : String
  status : Nat
  headers : Option (List (String × String))
deriving DecidableEq

/-- A HAR entry (lines 61-86).  `urlPath` is the path component of
`request.url` (the recorded URL is `new URL(path, targetUrl)` plus query
parameters, whose path component is the forwarded path; `startedDateTime`
and `time` carry no schema information and are not modelled). -/
structure HarEntry where
  method : String
  urlPath : String
  requestHeaders : List (String × String)
  queryString : List (String × String)
  postData : Option (String × String)
  status : Nat
  statusText : String
  responseHeaders : List (String × String)
  size : Nat
  mimeType : String
  text : String
deriving DecidableEq

/-- `RequestInfo` (lines 34-40); `body = none` models an absent body. -/
structure RequestInfo where
  query : List (String × String)
  body : Option Js
  contentType : String
  headers : Option (List (String × String))
  security : Option (List SecurityInfo)
deriving DecidableEq

/-- `ResponseInfo` (lines 42-48). -/
structure ResponseInfo where
  status : Nat
  body : Js
  contentType : String
  headers : Option (List (String × String))
  rawData : Option String
deriving DecidableEq

/-- The mutable fields of `OpenAPIStore` (lines 108-116) that the recorded
behaviour depends on.  `targetUrl` only contributes the host part of
archive URLs and the server entry of the rendered document, neither of
which any store computation reads back; `examples` is written by no method
and `openAPIObject` is replaced wholesale by `getOpenAPISpec`. -/
structure StoreState where
  endpoints : List (String × EndpointInfo)
  harEntries : List HarEntry
  schemaCache : List (String × List Schema)
  securitySchemes : List (String × SecScheme)
  rawDataCache : List (String × List (String × RawResponseData))
deriving DecidableEq

/-- A fresh store (`clear()` resets to this). -/
def emptyStore : StoreState := ⟨[], [], [], [], []⟩

/-- The placeholder text stored for deferred response bodies (line 368). -/
def deferredPlaceholder : String := "[Content stored but not processed for performance]"

/-- The placeholder schema stored for deferred response bodies (lines 569-574). -/
def deferredSchema : Schema :=
  .mk .tObject none none none none (some "Schema generation deferred to improve performance")

/-- The path component of the recorded URL: `new URL(path, targetUrl)` with
query parameters appended to `searchParams` has the forwarded path (up to
any `?`/`#` already inside it) as its `pathname`. -/
def pathnameOf (p : String) : String :=
  String.mk (p.data.takeWhile (fun c => c ≠ '?' ∧ c ≠ '#'))

/-- `recordHAREntry(path, method, request, response)` (lines 313-377). -/
def recordHAREntry (path method : String) (request : RequestInfo) (response : ResponseInfo)
    (st : StoreState) : StoreState :=
  let entry : HarEntry :=
    ⟨strUpper method,
     pathnameOf path,
     (request.headers.getD []).map (fun kv => (strLower kv.1, kv.2)),
     request.query,
     (match request.body with
      | some b =>
          if jsTruthy b then
            some (request.contentType, (match b with | .str s => s | b2 => jsStringify b2))
          else none
      | none => none),
     response.status,
     (if response.status = 200 then "OK" else "Error"),
     (response.headers.getD []).map (fun kv => (strLower kv.1, kv.2)),
     (match response.rawData with
      | some raw => raw.length
      | none => if jsTruthy response.body then (jsStringify response.body).length else 0),
     strOr response.contentType "application/json",
     (match response.rawData with
      | some _ => deferredPlaceholder
      | none => (match response.body with | .str s => s | b => jsStringify b))⟩
  ⟨st.endpoints, st.harEntries ++ [entry], st.schemaCache, st.securitySchemes, st.rawDataCache⟩

/-- `params.some(p => p.name === n)`: the name-only duplicate test used for
all three parameter kinds (lines 477, 491, 505). -/
def paramNamePresent (params : List ParamInfo) (n : String) : Bool :=
  params.any (fun p => p.name == n)

/-- `if (!endpoint.parameters.some(p => p.name === X)) endpoint.parameters.push(…)`:
the push guarded by the name-only duplicate test, shared verbatim by the
path- (line 477), query- (line 491) and header-parameter (line 505)
insertions. -/
def insertParam (params : List ParamInfo) (p : ParamInfo) : List ParamInfo :=
  if paramNamePresent params p.name then params else params ++ [p]

/-- Insert the path parameters of the templated path (lines 474-487). -/
def addPathParams (names : List String) (params : List ParamInfo) : List ParamInfo :=
  names.foldl (fun ps n => insertParam ps ⟨n, "path", some true, none⟩) params

/-- Insert the query parameters (lines 490-500). -/
def addQueryParams (query : List (String × String)) (params : List ParamInfo) :
    List ParamInfo :=
  query.foldl (fun ps kv => insertParam ps ⟨kv.1, "query", none, none⟩) params

/-- Insert the request headers as parameters (lines 503-517). -/
def addHeaderParams (headers : List (String × String)) (params : List ParamInfo) :
    List ParamInfo :=
  headers.foldl (fun ps kv => insertParam ps ⟨kv.1, "header", some false, some kv.2⟩) params

/-- `recordEndpoint(path, method, request, response)` (lines 442-611).
The source mutates one `endpoint` object field by field; each mutation
below is the value its field holds when `this.endpoints.set(key, endpoint)`
runs, reading only fields the preceding steps never touch (the request-body
step reads the prior `requestBody`, the response steps the prior
`responses`), so the per-field computation is the sequential one. -/
def recordEndpoint (path method : String) (request : RequestInfo) (response : ResponseInfo)
    (st : StoreState) : StoreState :=
  let openApiPath := templatePath path
  let key := method ++ ":" ++ openApiPath
  let endpoint0 : EndpointInfo :=
    (alGet key st.endpoints).getD
      ⟨openApiPath, method, [], [],
       (if strLower method = "get" then none else some ⟨false, []⟩), none⟩
  -- security schemes (lines 466-471); an empty hint list is truthy and
  -- still installs an (empty) security array
  let secResult :=
    match request.security with
    | some secs =>
        let r := addSecuritySchemesFold secs st.securitySchemes
        (some r.1, r.2)
    | none => (endpoint0.security, st.securitySchemes)
  -- parameters (lines 474-517)
  let params3 :=
    addHeaderParams (request.headers.getD [])
      (addQueryParams request.query
        (addPathParams (epGo none openApiPath.data) endpoint0.parameters))
  -- request body: first non-empty body per content type wins (lines 520-528)
  let requestBody1 :=
    match request.body with
    | some b =>
        if jsTruthy b && strLower method != "get" then
          match endpoint0.requestBody with
          | some rb =>
              if (alGet (strOr request.contentType "application/json") rb.content).isNone then
                some (⟨rb.required,
                  alSet (strOr request.contentType "application/json") (generateJsonSchema b)
                    rb.content⟩ : RequestBodyObj)
              else endpoint0.requestBody
          | none => endpoint0.requestBody
        else endpoint0.requestBody
    | none => endpoint0.requestBody
  -- response object initialisation (lines 531-545)
  let responseContentType := strOr response.contentType "application/json"
  let responses1 :=
    if (alGet response.status endpoint0.responses).isNone then
      alSet response.status
        ⟨"Response for " ++ strUpper method ++ " " ++ path, [], none⟩
        endpoint0.responses
    else endpoint0.responses
  let respObj := (alGet response.status responses1).getD ⟨"", [], none⟩
  -- response schema: merged over the cached history, or deferred (lines 547-588)
  let afterSchema :
      List (String × List Schema) × List (String × List (String × RawResponseData)) × ResponseObj :=
    match response.rawData with
    | none =>
        let currentSchema := generateJsonSchema response.body
        let schemaKey := key ++ ":" ++ toString response.status ++ ":" ++ responseContentType
        let existing := (alGet schemaKey st.schemaCache).getD [] ++ [currentSchema]
        let merged := deepMergeSchemas existing
        (alSet schemaKey existing st.schemaCache, st.rawDataCache,
         ⟨respObj.description, alSet responseContentType merged respObj.content, respObj.headers⟩)
    | some raw =>
        let pathMap := (alGet path st.rawDataCache).getD []
        (st.schemaCache,
         alSet path (alSet method (⟨raw, response.status, response.headers⟩ : RawResponseData) pathMap)
           st.rawDataCache,
         ⟨respObj.description, alSet responseContentType deferredSchema respObj.content,
          respObj.headers⟩)
  let responses2 := alSet response.status afterSchema.2.2 responses1
  -- response headers: rewritten wholesale on every call (lines 591-605)
  let responses3 :=
    match response.headers with
    | some hs =>
        if hs.length ≠ 0 then
          let r := (alGet response.status responses2).getD ⟨"", [], none⟩
          alSet response.status (⟨r.description, r.content, some hs⟩ : ResponseObj) responses2
        else responses2
    | none => responses2
  let endpoint4 :=
    EndpointInfo.mk endpoint0.path endpoint0.method responses3 params3 requestBody1 secResult.1
  let st2 : StoreState :=
    ⟨alSet key endpoint4 st.endpoints, st.harEntries, afterSchema.1, secResult.2,
     afterSchema.2.1⟩
  recordHAREntry path method request response st2

/-! ### A strict JSON parser (`JSON.parse`)

Standard JSON grammar on character lists.  Numbers are read into exact
rationals (doubles with huge exponents aside, which no claim exercises,
this preserves exactly the distinctions `Number.isInteger` sees).  The
value parser is fueled for kernel computability; `jsonParse` supplies fuel
bounded by the input length, which the bracket-consuming recursion never
exhausts. -/

/-- JSON whitespace. -/
def jsonWs (c : Char) : Bool := c = ' ' || c = '\t' || c = '\n' || c = '\r'

/-- Skip insignificant whitespace. -/
def skipWs (cs : List Char) : List Char := cs.dropWhile jsonWs

/-- Hexadecimal digit value. -/
def hexVal (c : Char) : Option Nat :=
  if c.isDigit then some (c.toNat - 48)
  else if 'a' ≤ c ∧ c ≤ 'f' then some (c.toNat - 87)
  else if 'A' ≤ c ∧ c ≤ 'F' then some (c.toNat - 55)
  else none

/-- Body of a JSON string literal (after the opening quote); returns the
decoded characters and the remainder after the closing quote. -/
def parseStrBody : List Char → Option (List Char × List Char)
  | [] => none
  | '"' :: rest => some ([], rest)
  | '\\' :: rest =>
      (match rest with
       | '"' :: r => (parseStrBody r).map (fun p => ('"' :: p.1, p.2))
       | '\\' :: r => (parseStrBody r).map (fun p => ('\\' :: p.1, p.2))
       | '/' :: r => (parseStrBody r).map (fun p => ('/' :: p.1, p.2))
       | 'b' :: r => (parseStrBody r).map (fun p => ('\x08' :: p.1, p.2))
       | 'f' :: r => (parseStrBody r).map (fun p => ('\x0c' :: p.1, p.2))
       | 'n' :: r => (parseStrBody r).map (fun p => ('\n' :: p.1, p.2))
       | 'r' :: r => (parseStrBody r).map (fun p => ('\r' :: p.1, p.2))
       | 't' :: r => (parseStrBody r).map (fun p => ('\t' :: p.1, p.2))
       | 'u' :: h1 :: h2 :: h3 :: h4 :: r =>
          (match hexVal h1, hexVal h2, hexVal h3, hexVal h4 with
           | some a, some b, some c, some d =>
              (parseStrBody r).map
                (fun p => (Char.ofNat (((a * 16 + b) * 16 + c) * 16 + d) :: p.1, p.2))
           | _, _, _, _ => none)
       | _ => none)
  | c :: rest =>
      if c.toNat < 32 then none
      else (parseStrBody rest).map (fun p => (c :: p.1, p.2))
termination_by structural l => l

/-- Digit run to a natural number. -/
def digitsToNat (ds : List Char) : Nat := ds.foldl (fun a c => a * 10 + (c.toNat - 48)) 0

/-- A JSON number (`-? int frac? exp?`, no leading zeros).  When the
fraction and exponent are absent the value is built without any division,
keeping whole numbers kernel-friendly. -/
def parseNumber (cs : List Char) : Option (ℚ × List Char) :=
  let signed := match cs with | '-' :: r => (true, r) | _ => (false, cs)
  let ip := signed.2.takeWhile Char.isDigit
  if ip.isEmpty then none
  else if 1 < ip.length ∧ ip.headD '0' = '0' then none
  else
    let r1 := signed.2.drop ip.length
    let fracPart : Option (List Char × List Char) :=
      match r1 with
      | '.' :: r =>
          let f := r.takeWhile Char.isDigit
          if f.isEmpty then none else some (f, r.drop f.length)
      | _ => some ([], r1)
    match fracPart with
    | none => none
    | some (f, r2) =>
        let expPart : Option (Bool × Nat × List Char) :=
          match r2 with
          | 'e' :: r | 'E' :: r =>
              let se := match r with
                | '+' :: r3 => (false, r3)
                | '-' :: r3 => (true, r3)
                | _ => (false, r)
              let ds := se.2.takeWhile Char.isDigit
              if ds.isEmpty then none
              else some (se.1, digitsToNat ds, se.2.drop ds.length)
          | _ => some (false, 0, r2)
        match expPart with
        | none => none
        | some (eneg, e, r3) =>
            let mantissa : ℚ :=
              if f.isEmpty ∧ e = 0 then (digitsToNat ip : ℚ)
              else ((digitsToNat ip * 10 ^ f.length + digitsToNat f : ℚ) / (10 ^ f.length : ℚ)) *
                    (if eneg then 1 / (10 ^ e : ℚ) else (10 ^ e : ℚ))
            some ((if signed.1 then -mantissa else mantissa), r3)

mutual
/-- A JSON value; returns the value and the unconsumed remainder. -/
def parseVal : Nat → List Char → Option (Js × List Char)
  | 0, _ => none
  | fuel + 1, cs =>
      match skipWs cs with
      | 'n' :: 'u' :: 'l' :: 'l' :: rest => some (.null, rest)
      | 't' :: 'r' :: 'u' :: 'e' :: rest => some (.bool true, rest)
      | 'f' :: 'a' :: 'l' :: 's' :: 'e' :: rest => some (.bool false, rest)
      | '"' :: rest => (parseStrBody rest).map (fun p => (.str (String.mk p.1), p.2))
      | '[' :: rest =>
          (match skipWs rest with
           | ']' :: rest2 => some (.arr .nil, rest2)
           | cs2 => (parseElems fuel cs2).map (fun p => (.arr p.1, p.2)))
      | '{' :: rest =>
          (match skipWs rest with
           | '}' :: rest2 => some (.obj .nil, rest2)
           | cs2 => (parseMembers fuel cs2).map (fun p => (.obj p.1, p.2)))
      | cs2 => (parseNumber cs2).map (fun p => (.num p.1, p.2))
termination_by structural fuel => fuel
/-- Comma-separated array elements up to the closing bracket. -/
def parseElems : Nat → List Char → Option (JsA × List Char)
  | 0, _ => none
  | fuel + 1, cs =>
      match parseVal fuel cs with
      | none => none
      | some (v, rest) =>
          match skipWs rest with
          | ',' :: rest2 => (parseElems fuel rest2).map (fun p => (JsA.cons v p.1, p.2))
          | ']' :: rest2 => some (.cons v .nil, rest2)
          | _ => none
termination_by structural fuel => fuel
/-- Comma-separated object members up to the closing brace. -/
def parseMembers : Nat → List Char → Option (JsO × List Char)
  | 0, _ => none
  | fuel + 1, cs =>
      match skipWs cs with
      | '"' :: rest =>
          (match parseStrBody rest with
           | none => none
           | some (kcs, rest2) =>
              match skipWs rest2 with
              | ':' :: rest3 =>
                  (match parseVal fuel rest3 with
                   | none => none
                   | some (v, rest4) =>
                      match skipWs rest4 with
                      | ',' :: rest5 =>
                          (parseMembers fuel rest5).map
                            (fun p => (JsO.cons (String.mk kcs) v p.1, p.2))
                      | '}' :: rest5 => some (.cons (String.mk kcs) v .nil, rest5)
                      | _ => none)
              | _ => none)
      | _ => none
termination_by structural fuel => fuel
end

/-- `JSON.parse(s)`: `some` on success, `none` on a syntax error. -/
def jsonParse (s : String) : Option Js :=
  match parseVal (s.length + 1) s.data with
  | some (v, rest) => if (skipWs rest).isEmpty then some v else none
  | none => none

example : jsonParse "\x7b\"id\":1,\"name\":\"A\"\x7d" =
    some (.obj (.cons "id" (.num 1) (.cons "name" (.str "A") .nil))) := by decide
example : jsonParse "\x7bid:1,name:'A'\x7d" = none := by decide

/-! ### `cleanJsonString` (openApiStore.ts lines 1078-1123)

Each `.replace` pass is a left-to-right scanner with global-regex
semantics (leftmost match, emit replacement, continue after the matched
text; on failure advance one character).  The lookahead passes are fueled
for kernel computability; the wrappers supply ample fuel.  The source's
`try`/`catch` wrapper is unreachable here: every pass is total. -/

/-- JavaScript regex `\s` (the code points occurring in these scanners). -/
def jsWsCh (c : Char) : Bool :=
  c = ' ' || c = '\t' || c = '\n' || c = '\r' || c = '\x0b' || c = '\x0c'

/-- `.replace(/\/\/.*$/gm, '')`: strip a `//` comment up to the line end
(`.` matches neither `\n` nor `\r`, so a comment body containing `\r`
fails to match and is left in place, and the terminating `\n` survives). -/
def slcF : Nat → List Char → List Char
  | 0, cs => cs
  | fuel + 1, cs =>
      match cs with
      | [] => []
      | '/' :: '/' :: rest =>
          let body := rest.takeWhile (fun c => ¬(c = '\n' ∨ c = '\r'))
          (match rest.drop body.length with
           | '\r' :: _ => '/' :: slcF fuel ('/' :: rest)
           | remaining => slcF fuel remaining)
      | c :: rest => c :: slcF fuel rest

/-- Remainder after the first `*/`, if any. -/
def afterCloser : List Char → Option (List Char)
  | [] => none
  | '*' :: '/' :: rest => some rest
  | _ :: rest => afterCloser rest

/-- `.replace(/\/\*[\s\S]*?\*\//g, '')`: drop each non-greedy `/* … */`
span; a `/*` with no closing `*/` anywhere matches nothing. -/
def smcF : Nat → List Char → List Char
  | 0, cs => cs
  | fuel + 1, cs =>
      match cs with
      | [] => []
      | '/' :: '*' :: rest =>
          (match afterCloser rest with
           | some rest2 => smcF fuel rest2
           | none => '/' :: '*' :: rest)
      | c :: rest => c :: smcF fuel rest

/-- `.replace(/,\s*CLOSE/g, 'CLOSE')`: drop a trailing comma before the
given closing bracket. -/
def tcF (close : Char) : Nat → List Char → List Char
  | 0, cs => cs
  | _ + 1, [] => []
  | fuel + 1, ',' :: rest =>
      let ws := rest.takeWhile jsWsCh
      (match rest.drop ws.length with
       | c :: rest2 =>
          if c = close then close :: tcF close fuel rest2
          else ',' :: tcF close fuel rest
       | [] => ',' :: tcF close fuel rest)
  | fuel + 1, c :: rest => c :: tcF close fuel rest

/-- `[a-zA-Z0-9_$]`. -/
def isIdentChar (c : Char) : Bool := c.isAlpha || c.isDigit || c = '_' || c = '$'

/-- `.replace(/([{,]\s*)([a-zA-Z0-9_$]+)(\s*:)/g, '$1"$2"$3')`: quote a
bare key after `{` or `,`. -/
def bkF : Nat → List Char → List Char
  | 0, cs => cs
  | _ + 1, [] => []
  | fuel + 1, c :: rest =>
      if c = '{' ∨ c = ',' then
        let ws1 := rest.takeWhile jsWsCh
        let r1 := rest.drop ws1.length
        let ident := r1.takeWhile isIdentChar
        if ident.isEmpty then c :: bkF fuel rest
        else
          let r2 := r1.drop ident.length
          let ws2 := r2.takeWhile jsWsCh
          match r2.drop ws2.length with
          | ':' :: r3 =>
              c :: (ws1 ++ '"' :: (ident ++ '"' :: (ws2 ++ ':' :: bkF fuel r3)))
          | _ => c :: bkF fuel rest
      else c :: bkF fuel rest

/-- The character-by-character single-quote conversion loop (lines
1093-1116): toggle string states, replace the single quotes that delimit
strings, and pass any character preceded by a backslash through
unchanged. -/
def fqGo : Bool → Bool → Option Char → List Char → List Char
  | _, _, _, [] => []
  | inS, inSq, prev, c :: rest =>
      if prev = some '\\' then c :: fqGo inS inSq (some c) rest
      else if c = '"' ∧ ¬inSq then '"' :: fqGo (!inS) inSq (some c) rest
      else if c = '\'' ∧ ¬inS then '"' :: fqGo inS (!inSq) (some c) rest
      else c :: fqGo inS inSq (some c) rest
termination_by structural _a _b _p l => l

/-- `cleanJsonString(text)` (lines 1078-1123). -/
def cleanJsonString (text : String) : String :=
  let c1 := slcF (text.length + 1) text.data
  let c2 := smcF (c1.length + 1) c1
  let c3 := tcF '}' (c2.length + 1) c2
  let c4 := tcF ']' (c3.length + 1) c3
  let c5 := bkF (c4.length + 1) c4
  String.mk (fqGo false false none c5)

example : cleanJsonString "\x7bid:1,name:'A'\x7d" = "\x7b\"id\":1,\"name\":\"A\"\x7d" := by decide

/-! ### `generateSchemaFromStructure` (openApiStore.ts lines 970-1075)

Property names are harvested with `/["']?([a-zA-Z0-9_$]+)["']?\s*:/g` and
each property's kind is guessed from up to 50 characters following the
first `name:` occurrence.  Neither pattern benefits from regex
backtracking except in the `\s*` before the captured window, which is
modelled below.  The `format` annotation emitted by unrelated fallbacks is
not read by anything and is not modelled. -/

/-- `["']`. -/
def isQuoteCh (c : Char) : Bool := c = '"' || c = '\''

/-- Not a line terminator (what `.` can match; the astral separators
` `/` ` never occur in the modelled traffic). -/
def notLineTerm (c : Char) : Bool := ¬(c = '\n' ∨ c = '\r')

/-- `trim()` on a character list. -/
def trimChars (cs : List Char) : List Char :=
  ((cs.dropWhile jsWsCh).reverse.dropWhile jsWsCh).reverse

/-- Strip an expected prefix. -/
def stripPfxL : List Char → List Char → Option (List Char)
  | [], cs => some cs
  | _ :: _, [] => none
  | a :: as, b :: bs => if a = b then stripPfxL as bs else none

/-- All matches of `/["']?([a-zA-Z0-9_$]+)["']?\s*:/g`: the captured
identifiers, in order (which is what the `replace(/["']/g, '')
.replace(':', '').trim()` cleanup recovers from each match). -/
def pmF : Nat → List Char → List String
  | 0, _ => []
  | _ + 1, [] => []
  | fuel + 1, c :: rest =>
      let startAfterQ := if isQuoteCh c then rest else c :: rest
      let ident := startAfterQ.takeWhile isIdentChar
      if ident.isEmpty then pmF fuel rest
      else
        let r1 := startAfterQ.drop ident.length
        let r2 :=
          match r1 with
          | q :: r => if isQuoteCh q then r else r1
          | [] => r1
        let ws := r2.takeWhile jsWsCh
        match r2.drop ws.length with
        | ':' :: r3 => String.mk ident :: pmF fuel r3
        | _ => pmF fuel rest

/-- One attempt of `["']?NAME["']?\s*:\s*(.{1,50})` at the head of `cs`:
the raw captured window on success.  When no capturable character follows
the whitespace run, the greedy `\s*` backtracks onto its own trailing
non-line-terminator characters. -/
def vgAt (name : List Char) (cs : List Char) : Option (List Char) :=
  let s1 := match cs with
    | q :: r => if isQuoteCh q then r else cs
    | [] => cs
  match stripPfxL name s1 with
  | none => none
  | some r1 =>
      let r2 := match r1 with
        | q :: r => if isQuoteCh q then r else r1
        | [] => r1
      let ws := r2.takeWhile jsWsCh
      match r2.drop ws.length with
      | ':' :: r3 =>
          let ws2 := r3.takeWhile jsWsCh
          let after := r3.drop ws2.length
          let content := (after.takeWhile notLineTerm).take 50
          if ¬content.isEmpty then some content
          else
            let wsNN := (ws2.reverse.takeWhile notLineTerm).reverse
            if ¬wsNN.isEmpty then some wsNN else none
      | _ => none

/-- First match of the value-guess pattern anywhere in the text. -/
def vgF (name : List Char) : Nat → List Char → Option (List Char)
  | 0, _ => none
  | _ + 1, [] => none
  | fuel + 1, c :: rest =>
      match vgAt name (c :: rest) with
      | some cap => some cap
      | none => vgF name fuel rest

/-- `^-?\d+(\.\d+)?([eE][+-]?\d+)?` as a `test`: an optional minus followed
by at least one digit (the remainder of the pattern is optional). -/
def numPrefixTest : List Char → Bool
  | '-' :: r => (r.headD ' ').isDigit
  | c :: _ => c.isDigit
  | [] => false

/-- The kind guessed from a trimmed value window (lines 1006-1043). -/
def classifyValue (vs : List Char) : Schema :=
  match vs with
  | '{' :: _ => .mk .tObject none none none none (some "Nested object detected")
  | '[' :: _ =>
      .mk .tArray none
        (some (.mk .tObject none none none none (some "Array items (structure inferred)")))
        none none (some "Array value detected")
  | _ =>
      if (vs.headD ' ') = '"' ∨ (vs.headD ' ') = '\'' then
        .mk .tString none none none none none
      else if numPrefixTest vs then
        .mk (if vs.contains '.' then .tNumber else .tInteger) none none none none none
      else if (stripPfxL "true".data vs).isSome ∨ (stripPfxL "false".data vs).isSome then
        .mk .tBoolean none none none none none
      else if (stripPfxL "null".data vs).isSome then
        .mk .tNull none none none none none
      else
        .mk .tString none none none none (some "Property detected by structure analysis")

/-- Assemble the guessed properties, first occurrence of each name wins
(`if (propName && !properties[propName])`). -/
def buildProps (text : List Char) : List String → List (String × Schema) → List (String × Schema)
  | [], acc => acc
  | n :: rest, acc =>
      if n = "" ∨ (alGet n acc).isSome then buildProps text rest acc
      else
        let schema :=
          match vgF n.data (text.length + 1) text with
          | some cap => classifyValue (trimChars cap)
          | none => .mk .tString none none none none
              (some "Property detected by structure analysis")
        buildProps text rest (acc ++ [(n, schema)])

/-- `generateSchemaFromStructure(text)` (lines 970-1075). -/
def generateSchemaFromStructure (text : String) : Schema :=
  let t := trimChars text.data
  if t.headD ' ' = '[' ∧ t.getLast? = some ']' then
    .mk .tArray none
      (some (.mk .tObject none none none none (some "Array items (structure inferred)")))
      none none (some "Array-like structure detected")
  else if t.headD ' ' = '{' ∧ t.getLast? = some '}' then
    match pmF (t.length + 1) t with
    | [] => .mk .tObject none none none none (some "Object-like structure detected")
    | names =>
        .mk .tObject (some (SProps.ofList (buildProps t names []))) none none none
          (some "Object structure detected with properties")
  else .mk .tString none none none none (some "Unstructured content")

/-! ### Deferred processing (openApiStore.ts lines 613-830 and 945-967) -/

/-- Substring test (`String.prototype.includes`). -/
def startsWithL : List Char → List Char → Bool
  | [], _ => true
  | _ :: _, [] => false
  | a :: as, b :: bs => a == b && startsWithL as bs

/-- `hay.includes(needle)`. -/
def inclL (needle : List Char) : List Char → Bool
  | [] => needle.isEmpty
  | c :: rest => startsWithL needle (c :: rest) || inclL needle rest

/-- `hay.includes(needle)` on strings. -/
def strIncludes (needle hay : String) : Bool := inclL needle.data hay.data

/-- `headers.find(h => h.name.toLowerCase() === nm)?.value`. -/
def findHeaderValue (nm : String) : List (String × String) → Option String
  | [] => none
  | (k, v) :: rest => if strLower k = nm then some v else findHeaderValue nm rest

/-- `split(';')[0]`. -/
def beforeSemi (s : String) : String := String.mk (s.data.takeWhile (fun c => c ≠ ';'))

/-- One pass of the `processHAREntries` loop body over a single entry
(lines 616-679): decode an entry still carrying the placeholder text from
the raw-data cache, returning the (possibly updated) entry and whether the
decode ran.  `gz` is the external `zlib.gunzipSync` collaborator
(`Buffer.from(…, 'base64')` round-trips and is the identity here); with a
total `gz` the surrounding `try`/`catch` is unreachable. -/
def processHarEntry (gz : String → String)
    (cache : List (String × List (String × RawResponseData))) (e : HarEntry) :
    HarEntry × Bool :=
  if e.text ≠ deferredPlaceholder then (e, false)
  else
    match alGet e.urlPath cache with
    | none => (e, false)
    | some pathMap =>
        match alGet (strLower e.method) pathMap with
        | none => (e, false)
        | some rd =>
            if rd.rawData = "" then (e, false)
            else
              let text0 :=
                match findHeaderValue "content-encoding" e.responseHeaders with
                | some enc => if strIncludes "gzip" enc then gz rd.rawData else rd.rawData
                | none => rd.rawData
              let text :=
                if strIncludes "json" e.mimeType then
                  match jsonParse text0 with
                  | some j => jsStringify j
                  | none =>
                      match jsonParse (cleanJsonString text0) with
                      | some j => jsStringify j
                      | none => text0
                else text0
              (⟨e.method, e.urlPath, e.requestHeaders, e.queryString, e.postData, e.status,
                e.statusText, e.responseHeaders, e.size, e.mimeType, text⟩, true)

/-- `processHAREntries()` (lines 614-681) plus the number of entries whose
deferred decode ran during this pass. -/
def processHAREntriesCount (gz : String → String) (st : StoreState) : StoreState × Nat :=
  let results := st.harEntries.map (processHarEntry gz st.rawDataCache)
  (⟨st.endpoints, results.map Prod.fst, st.schemaCache, st.securitySchemes, st.rawDataCache⟩,
   (results.filter Prod.snd).length)

/-- `processHAREntries()`: the state effect alone. -/
def processHAREntries (gz : String → String) (st : StoreState) : StoreState :=
  (processHAREntriesCount gz st).1

/-- `generateHAR()` (lines 953-967): process deferred entries, then return
the archive log; its entry list is the processed `harEntries`. -/
def generateHAR (gz : String → String) (st : StoreState) : List HarEntry × StoreState :=
  let st2 := processHAREntries gz st
  (st2.harEntries, st2)

/-- `getOperationForPathAndMethod(path, method)` (lines 946-951). -/
def getOperationForPathAndMethod (path method : String)
    (endpoints : List (String × EndpointInfo)) : Option EndpointInfo :=
  alGet (method ++ ":" ++ templatePath path) endpoints

/-- The body of the `processRawData` double loop for one cached
`(path, method, rawData)` triple (lines 690-820): re-derive the response
schema from the decoded text and store it on the endpoint, under the
content type named by the stored headers. -/
def processRawOne (gz : String → String) (path method : String) (rd : RawResponseData)
    (endpoints : List (String × EndpointInfo)) : List (String × EndpointInfo) :=
  match getOperationForPathAndMethod path method endpoints with
  | none => endpoints
  | some op =>
      if rd.rawData = "" then endpoints
      else
        let hs := rd.headers.getD []
        let responses1 :=
          if (alGet rd.status op.responses).isNone then
            alSet rd.status
              (⟨"Response for status code " ++ toString rd.status, [], none⟩ : ResponseObj)
              op.responses
          else op.responses
        let resp := (alGet rd.status responses1).getD ⟨"", [], none⟩
        let contentType :=
          match findHeaderValue "content-type" hs with
          | some v => if v ≠ "" then beforeSemi v else "application/json"
          | none => "application/json"
        let text :=
          match findHeaderValue "content-encoding" hs with
          | some enc => if strIncludes "gzip" enc then gz rd.rawData else rd.rawData
          | none => rd.rawData
        let newContent : List (String × Schema) :=
          if strIncludes "json" contentType then
            match jsonParse text with
            | some j => alSet contentType (generateJsonSchema j) resp.content
            | none =>
                match jsonParse (cleanJsonString text) with
                | some j => alSet contentType (generateJsonSchema j) resp.content
                | none =>
                    let t := trimChars text.data
                    if t.headD ' ' = '{' ∨ t.headD ' ' = '[' then
                      alSet contentType (generateSchemaFromStructure text) resp.content
                    else
                      alSet contentType
                        (.mk .tString none none none none (some "Non-parseable content"))
                        resp.content
          else if strIncludes "xml" contentType then
            alSet contentType (.mk .tString none none none none (some "XML content"))
              resp.content
          else if strIncludes "image/" contentType then
            alSet contentType (.mk .tString none none none none (some "Image content"))
              resp.content
          else
            alSet contentType
              (.mk .tString none none none none
                (some (if 100 < text.length
                       then String.mk (text.data.take 100) ++ "..."
                       else text)))
              resp.content
        alSet (method ++ ":" ++ templatePath path)
          (EndpointInfo.mk op.path op.method
            (alSet rd.status (⟨resp.description, newContent, resp.headers⟩ : ResponseObj)
              responses1)
            op.parameters op.requestBody op.security)
          endpoints

/-- `processRawData()` (lines 684-825): walk the raw-data cache in
insertion order, update the endpoints, then clear the cache. -/
def processRawData (gz : String → String) (st : StoreState) : StoreState :=
  if st.rawDataCache.isEmpty then st
  else
    let endpoints2 :=
      st.rawDataCache.foldl
        (fun eps pathEntry =>
          pathEntry.2.foldl
            (fun eps2 methodEntry =>
              processRawOne gz pathEntry.1 methodEntry.1 methodEntry.2 eps2)
            eps)
        st.endpoints
    ⟨endpoints2, st.harEntries, st.schemaCache, st.securitySchemes, []⟩

/-- The state effect of `getOpenAPISpec()` (lines 827-830): process the
deferred raw data, then assemble the document.  The assembly (lines
831-916) only reads the store — it formats fresh objects — so the state
effect is exactly `processRawData`. -/
def getOpenAPISpecState (gz : String → String) (st : StoreState) : StoreState :=
  processRawData gz st

/-! ### Accessors used by the claim statements -/

/-- The stored request-body schema of endpoint `key` for content type `ct`. -/
def requestSchemaAt (st : StoreState) (key ct : String) : Option Schema :=
  (alGet key st.endpoints).bind (fun e => e.requestBody.bind (fun rb => alGet ct rb.content))

/-- The stored response schema of endpoint `key` for `status` and content
type `ct`. -/
def responseSchemaAt (st : StoreState) (key : String) (status : Nat) (ct : String) :
    Option Schema :=
  (alGet key st.endpoints).bind
    (fun e => (alGet status e.responses).bind (fun r => alGet ct r.content))

/-- Whether a schema has a property named `k`. -/
def hasProp (s : Schema) (k : String) : Bool :=
  ((s.propsD).lookup k).isSome

/-! ### C3 — request bodies are not merged across calls -/

/-- The two POST `/users` calls of the claim: body `{"name":"A"}`, then body
`{"name":"B","age":1}`, both JSON, against a fresh store. -/
def c3Store : StoreState :=
  recordEndpoint "/users" "post"
    (⟨[], some (.obj (.cons "name" (.str "B") (.cons "age" (.num 1) .nil))),
      "application/json", none, none⟩ : RequestInfo)
    (⟨201, .null, "application/json", none, none⟩ : ResponseInfo)
    (recordEndpoint "/users" "post"
      (⟨[], some (.obj (.cons "name" (.str "A") .nil)), "application/json", none, none⟩ :
        RequestInfo)
      (⟨201, .null, "application/json", none, none⟩ : ResponseInfo)
      emptyStore)

/-- C3, counterexample.  After POST `/users` with `{"name":"A"}` and then
with `{"name":"B","age":1}`, the stored request-body schema for
`application/json` has no property `age` at all, contradicting the claim
that it has both `name: string` and `age: integer`: the guard
`!endpoint.requestBody.content[contentType]` (line 522) makes the second
body a no-op. -/
theorem c3_counterexample :
    (requestSchemaAt c3Store "post:/users" "application/json").map
      (fun s => hasProp s "age") = some false := by decide

/-- C3, amended: the first non-empty body per content type wins.  After the
two calls, the stored request-body schema is exactly the schema synthesized
from the first body: it has `name` of type string, and no `age`. -/
theorem c3_first_body_wins :
    requestSchemaAt c3Store "post:/users" "application/json" =
      some (generateJsonSchema (.obj (.cons "name" (.str "A") .nil))) ∧
    ((generateJsonSchema (.obj (.cons "name" (.str "A") .nil))).propsD.lookup "name").map
      Schema.type = some .tString ∧
    hasProp (generateJsonSchema (.obj (.cons "name" (.str "A") .nil))) "age" = false := by
  refine ⟨by decide, by decide, by decide⟩

/-! ### C9 — malformed-JSON recovery by repair -/

/-- A deferred exchange whose raw response body decodes to
`{id:1,name:'A'}` (bare keys, single quotes) with a JSON content type. -/
def c9Store : StoreState :=
  recordEndpoint "/data" "get"
    (⟨[], none, "application/json", none, none⟩ : RequestInfo)
    (⟨200, .null, "application/json", some [("content-type", "application/json")],
      some "\x7bid:1,name:'A'\x7d"⟩ : ResponseInfo)
    emptyStore

/-- C9: the deferred text `{id:1,name:'A'}` fails `JSON.parse`, is repaired
by `cleanJsonString` (keys quoted, single quotes converted) and re-parsed,
so the processing pass stores the object schema of `{"id":1,"name":"A"}` —
with properties `id: integer` and `name: string` — and not a bare string
fallback.  This body carries no content-encoding header, so the
decompression collaborator is never consulted; it is instantiated with the
identity. -/
theorem c9_repair_recovers_object_schema :
    responseSchemaAt (getOpenAPISpecState id c9Store) "get:/data" 200 "application/json" =
      some (generateJsonSchema (.obj (.cons "id" (.num 1) (.cons "name" (.str "A") .nil)))) ∧
    (generateJsonSchema (.obj (.cons "id" (.num 1) (.cons "name" (.str "A") .nil)))).type =
      .tObject ∧
    ((generateJsonSchema
        (.obj (.cons "id" (.num 1) (.cons "name" (.str "A") .nil)))).propsD.lookup "id").map
      Schema.type = some .tInteger ∧
    ((generateJsonSchema
        (.obj (.cons "id" (.num 1) (.cons "name" (.str "A") .nil)))).propsD.lookup
        "name").map Schema.type = some .tString := by
  refine ⟨by decide, by decide, by decide, by decide⟩

/-! ### Association-list and parameter-insertion lemmas -/

theorem alGet_alSet_self {α β : Type} [DecidableEq α] (k : α) (v : β) (l : List (α × β)) :
    alGet k (alSet k v l) = some v := by
  induction l with
  | nil => simp [alSet, alGet]
  | cons hd tl ih =>
      obtain ⟨k2, v2⟩ := hd
      by_cases h : k2 = k
      · simp [alSet, alGet, h]
      · simp [alSet, alGet, h, ih]

theorem alGet_alSet_ne {α β : Type} [DecidableEq α] {k k2 : α} (v : β) (l : List (α × β))
    (h : k2 ≠ k) : alGet k2 (alSet k v l) = alGet k2 l := by
  induction l with
  | nil =>
      simp only [alSet, alGet]
      rw [if_neg (fun hh : k = k2 => h hh.symm)]
  | cons hd tl ih =>
      obtain ⟨k3, v3⟩ := hd
      simp only [alSet]
      by_cases h3 : k3 = k
      · rw [if_pos h3]
        subst h3
        simp only [alGet]
        rw [if_neg (fun hh : k3 = k2 => h hh.symm), if_neg (fun hh : k3 = k2 => h hh.symm)]
      · rw [if_neg h3]
        simp only [alGet]
        by_cases h2 : k3 = k2
        · rw [if_pos h2, if_pos h2]
        · rw [if_neg h2, if_neg h2, ih]

theorem paramNamePresent_insertParam {ps : List ParamInfo} {n : String} (p : ParamInfo)
    (h : paramNamePresent ps n = true) : paramNamePresent (insertParam ps p) n = true := by
  unfold insertParam
  split
  · exact h
  · simp only [paramNamePresent, List.any_append] at *
    simp [h]

theorem filter_name_insertParam (ps : List ParamInfo) (p : ParamInfo) (n : String)
    (hn : paramNamePresent ps n = true) :
    (insertParam ps p).filter (fun q => q.name == n) = ps.filter (fun q => q.name == n) := by
  unfold insertParam
  split
  · rfl
  · next habs =>
      have hpn : ¬p.name = n := by
        intro he
        rw [he] at habs
        exact absurd hn (by simp [habs])
      simp [List.filter_append, hpn]

theorem names_nodup_insertParam {ps : List ParamInfo} (p : ParamInfo)
    (h : (ps.map ParamInfo.name).Nodup) :
    ((insertParam ps p).map ParamInfo.name).Nodup := by
  unfold insertParam
  split
  · exact h
  · next habs =>
      have : p.name ∉ ps.map ParamInfo.name := by
        intro hmem
        apply habs
        simp only [paramNamePresent, List.any_eq_true]
        obtain ⟨q, hq, hqe⟩ := List.mem_map.mp hmem
        exact ⟨q, hq, by simp [hqe]⟩
      simp [List.nodup_append, h, this]

theorem foldl_insertParam_present {α : Type} (g : α → ParamInfo) (xs : List α)
    (ps : List ParamInfo) (n : String) (hn : paramNamePresent ps n = true) :
    paramNamePresent (xs.foldl (fun a x => insertParam a (g x)) ps) n = true := by
  induction xs generalizing ps with
  | nil => exact hn
  | cons x rest ih =>
      rw [List.foldl_cons]
      exact ih (insertParam ps (g x)) (paramNamePresent_insertParam (g x) hn)

/-- The shape of the three parameter folds: iterating name-guarded pushes. -/
theorem foldl_insertParam_filter {α : Type} (g : α → ParamInfo) (xs : List α)
    (ps : List ParamInfo) (n : String) (hn : paramNamePresent ps n = true) :
    (xs.foldl (fun a x => insertParam a (g x)) ps).filter (fun q => q.name == n) =
      ps.filter (fun q => q.name == n) := by
  induction xs generalizing ps with
  | nil => rfl
  | cons x rest ih =>
      rw [List.foldl_cons]
      rw [ih (insertParam ps (g x)) (paramNamePresent_insertParam (g x) hn)]
      exact filter_name_insertParam ps (g x) n hn

theorem foldl_insertParam_nodup {α : Type} (g : α → ParamInfo) (xs : List α)
    (ps : List ParamInfo) (h : (ps.map ParamInfo.name).Nodup) :
    ((xs.foldl (fun a x => insertParam a (g x)) ps).map ParamInfo.name).Nodup := by
  induction xs generalizing ps with
  | nil => exact h
  | cons x rest ih =>
      rw [List.foldl_cons]
      exact ih (insertParam ps (g x)) (names_nodup_insertParam (g x) h)

-- The parameters of the endpoint stored by `recordEndpoint`: the prior
-- parameters (empty for a fresh endpoint) extended by the name-guarded
-- path, query and header insertions, in that order.
set_option maxHeartbeats 1600000 in
theorem recordEndpoint_params (path method : String) (req : RequestInfo) (res : ResponseInfo)
    (st : StoreState) :
    (alGet (method ++ ":" ++ templatePath path)
        (recordEndpoint path method req res st).endpoints).map EndpointInfo.parameters =
      some (addHeaderParams (req.headers.getD [])
        (addQueryParams req.query
          (addPathParams (epGo none (templatePath path).data)
            (((alGet (method ++ ":" ++ templatePath path) st.endpoints).map
                EndpointInfo.parameters).getD [])))) := by
  unfold recordEndpoint recordHAREntry
  simp only [alGet_alSet_self, Option.map_some]
  cases halg : alGet (method ++ ":" ++ templatePath path) st.endpoints <;>
    simp [halg]

/-! ### C4 — parameter identity is by name alone, not (name, location) -/

/-- C4, counterexample.  One GET `/users/123` call with query `id=5`: the
path parameter `id` is recorded first, and the query parameter named `id`
is then skipped by the name-only test `parameters.some(p => p.name === key)`
(line 491), so the endpoint holds exactly one parameter `(id, path)` — not
both a path and a query parameter as the claim states. -/
theorem c4_counterexample :
    ((alGet ("get:/users/" ++ "{id}")
        (recordEndpoint "/users/123" "get"
          (⟨[("id", "5")], none, "application/json", none, none⟩ : RequestInfo)
          (⟨200, .null, "application/json", none, none⟩ : ResponseInfo)
          emptyStore).endpoints).map
      (fun e => e.parameters.map (fun p => (p.name, p.inLoc)))) =
    some [("id", "path")] := by decide

/-- C4, amended: within one `EndpointRecord`, parameters are identified by
name alone.  Upserting any parameter whose name is already present is a
no-op that keeps the first observation — regardless of location, so a query
or header parameter that shares its name with an existing parameter is not
recorded — and recorded endpoints never hold two parameters with the same
name. -/
theorem c4_params_identified_by_name_only (path method : String) (req : RequestInfo)
    (res : ResponseInfo) (st : StoreState) (e2 : EndpointInfo)
    (h : alGet (method ++ ":" ++ templatePath path)
        (recordEndpoint path method req res st).endpoints = some e2) :
    (∀ n : String,
      paramNamePresent
        (((alGet (method ++ ":" ++ templatePath path) st.endpoints).map
            EndpointInfo.parameters).getD []) n = true →
      e2.parameters.filter (fun q => q.name == n) =
        (((alGet (method ++ ":" ++ templatePath path) st.endpoints).map
            EndpointInfo.parameters).getD []).filter (fun q => q.name == n)) ∧
    (((((alGet (method ++ ":" ++ templatePath path) st.endpoints).map
          EndpointInfo.parameters).getD []).map ParamInfo.name).Nodup →
      (e2.parameters.map ParamInfo.name).Nodup) := by
  have hp := recordEndpoint_params path method req res st
  rw [h] at hp
  have he2 : e2.parameters =
      addHeaderParams (req.headers.getD [])
        (addQueryParams req.query
          (addPathParams (epGo none (templatePath path).data)
            (((alGet (method ++ ":" ++ templatePath path) st.endpoints).map
                EndpointInfo.parameters).getD []))) := by
    simpa using hp
  constructor
  · intro n hn
    rw [he2]
    unfold addHeaderParams addQueryParams addPathParams
    rw [foldl_insertParam_filter _ _ _ _
        (foldl_insertParam_present _ _ _ _ (foldl_insertParam_present _ _ _ _ hn)),
      foldl_insertParam_filter _ _ _ _ (foldl_insertParam_present _ _ _ _ hn),
      foldl_insertParam_filter _ _ _ _ hn]
  · intro hnd
    rw [he2]
    unfold addHeaderParams addQueryParams addPathParams
    exact foldl_insertParam_nodup _ _ _
      (foldl_insertParam_nodup _ _ _ (foldl_insertParam_nodup _ _ _ hnd))

/-- The C4 witness scenario: GET `/users/123` recorded once (installing the
path parameter `id`), then recorded again with query `id=5`. -/
def c4Base : StoreState :=
  recordEndpoint "/users/123" "get"
    (⟨[], none, "application/json", none, none⟩ : RequestInfo)
    (⟨200, .null, "application/json", none, none⟩ : ResponseInfo) emptyStore

/-- The second C4 call. -/
def c4Store2 : StoreState :=
  recordEndpoint "/users/123" "get"
    (⟨[("id", "5")], none, "application/json", none, none⟩ : RequestInfo)
    (⟨200, .null, "application/json", none, none⟩ : ResponseInfo) c4Base

/-- The endpoint stored after the second C4 call. -/
def c4Endpoint : EndpointInfo :=
  (alGet ("get:/users/" ++ "{id}") c4Store2.endpoints).getD ⟨"", "", [], [], none, none⟩

/-- C4, witness: the amended theorem applied to the concrete scenario. -/
theorem c4_witness :
    (∀ n : String,
      paramNamePresent
        (((alGet ("get:/users/" ++ "{id}") c4Base.endpoints).map
            EndpointInfo.parameters).getD []) n = true →
      c4Endpoint.parameters.filter (fun q => q.name == n) =
        (((alGet ("get:/users/" ++ "{id}") c4Base.endpoints).map
            EndpointInfo.parameters).getD []).filter (fun q => q.name == n)) ∧
    (((((alGet ("get:/users/" ++ "{id}") c4Base.endpoints).map
          EndpointInfo.parameters).getD []).map ParamInfo.name).Nodup →
      (c4Endpoint.parameters.map ParamInfo.name).Nodup) :=
  c4_params_identified_by_name_only "/users/123" "get"
    (⟨[("id", "5")], none, "application/json", none, none⟩ : RequestInfo)
    (⟨200, .null, "application/json", none, none⟩ : ResponseInfo) c4Base c4Endpoint (by decide)

/-! ### C5 — numeric-segment templating collapses endpoints -/

/-- A digit run is skipped without output in the digits state. -/
theorem nrGo_digits_skip : ∀ ds rest : List Char, (∀ c ∈ ds, c.isDigit = true) →
    nrGo .digits (ds ++ rest) = nrGo .digits rest
  | [], _, _ => rfl
  | d :: ds, rest, h => by
      have hd : d.isDigit = true := h d (List.mem_cons_self _ _)
      simp only [List.cons_append, nrGo, hd, if_pos, List.append_eq]
      exact nrGo_digits_skip ds rest (fun c hc => h c (List.mem_cons_of_mem _ hc))

/-- Slash-free characters pass through the normal state verbatim. -/
theorem nrGo_normal_skip : ∀ cs rest : List Char, (∀ c ∈ cs, c ≠ '/') →
    nrGo .normal (cs ++ rest) = cs ++ nrGo .normal rest
  | [], _, _ => rfl
  | c :: cs, rest, h => by
      have hc : c ≠ '/' := h c (List.mem_cons_self _ _)
      simp only [List.cons_append, nrGo, if_neg hc, List.append_eq]
      rw [nrGo_normal_skip cs rest (fun x hx => h x (List.mem_cons_of_mem _ hx))]

/-- One path segment, with the leading slash: `/seg`. -/
def catSegs : List (List Char) → List Char
  | [] => []
  | s :: rest => '/' :: (s ++ catSegs rest)

/-- A well-behaved path segment: non-empty, without `/` or `:`, and either
purely numeric or not starting with a digit (a numeric *prefix* would be
partially templated by the regex, which matches `\/(\d+)` anywhere). -/
def GoodSegC (cs : List Char) : Prop :=
  cs ≠ [] ∧ (∀ c ∈ cs, c ≠ '/') ∧ (∀ c ∈ cs, c ≠ ':') ∧
    (cs.all Char.isDigit = true ∨ (cs.headD ' ').isDigit = false)

/-- Per-segment templating: a purely numeric segment becomes `{id}`. -/
def tplChars (cs : List Char) : List Char :=
  if cs ≠ [] ∧ cs.all Char.isDigit = true then '{' :: 'i' :: 'd' :: '}' :: [] else cs

/-- After a complete segment the scanner re-synchronises on the next
slash. -/
theorem nrGo_digits_to_normal : ∀ segs : List (List Char),
    nrGo .digits (catSegs segs) = nrGo .normal (catSegs segs)
  | [] => rfl
  | s :: rest => by simp [catSegs, nrGo]

/-- The numeric-replacement scanner templates a good path segment-wise. -/
theorem nrGo_catSegs : ∀ segs : List (List Char), (∀ s ∈ segs, GoodSegC s) →
    nrGo .normal (catSegs segs) = catSegs (segs.map tplChars)
  | [], _ => rfl
  | s :: rest, h => by
      obtain ⟨hne, hslash, _, hnum⟩ := h s (List.mem_cons_self _ _)
      have hrest : ∀ t ∈ rest, GoodSegC t := fun t ht => h t (List.mem_cons_of_mem _ ht)
      have ih := nrGo_catSegs rest hrest
      cases s with
      | nil => exact absurd rfl hne
      | cons c cs =>
          rcases hnum with hall | hhead
          · -- purely numeric segment
            have hc : c.isDigit = true := by
              have := List.all_eq_true.mp hall c (List.mem_cons_self _ _)
              simpa using this
            have hcs : ∀ x ∈ cs, x.isDigit = true := fun x hx => by
              have := List.all_eq_true.mp hall x (List.mem_cons_of_mem _ hx)
              simpa using this
            simp only [catSegs, List.cons_append, nrGo, hc, if_pos, List.append_eq]
            rw [nrGo_digits_skip cs (catSegs rest) hcs, nrGo_digits_to_normal rest, ih]
            have : tplChars (c :: cs) = '{' :: 'i' :: 'd' :: '}' :: [] := by
              simp [tplChars, hall]
            simp [catSegs, this]
          · -- segment starting with a non-digit
            have hc : c ≠ '/' := hslash c (List.mem_cons_self _ _)
            have hhd : c.isDigit = false := by simpa using hhead
            simp only [catSegs, List.cons_append, nrGo, hhd, Bool.false_eq_true, if_neg,
              if_neg hc, List.nil_append, List.append_eq]
            rw [nrGo_normal_skip cs (catSegs rest)
              (fun x hx => hslash x (List.mem_cons_of_mem _ hx)), ih]
            have : tplChars (c :: cs) = c :: cs := by
              simp only [tplChars, ne_eq, reduceCtorEq, not_false_eq_true, true_and,
                ite_eq_right_iff]
              intro hall
              have := List.all_eq_true.mp hall c (List.mem_cons_self _ _)
              simp [this] at hhd
            simp [catSegs, this]

/-- The colon-replacement pass is the identity on colon-free text. -/
theorem crGo_no_colon : ∀ cs : List Char, (∀ c ∈ cs, c ≠ ':') → crGo false cs = cs
  | [], _ => rfl
  | c :: rest, h => by
      have hc : c ≠ ':' := h c (List.mem_cons_self _ _)
      have ih := crGo_no_colon rest (fun x hx => h x (List.mem_cons_of_mem _ hx))
      simp only [crGo, hc, ite_false, if_neg hc]
      rw [ih]

theorem alSet_keys {α β : Type} [DecidableEq α] (k : α) (v : β) (l : List (α × β)) :
    (alSet k v l).map Prod.fst =
      if k ∈ l.map Prod.fst then l.map Prod.fst else l.map Prod.fst ++ [k] := by
  induction l with
  | nil => simp [alSet]
  | cons hd tl ih =>
      obtain ⟨k2, v2⟩ := hd
      by_cases h2 : k2 = k
      · subst h2
        simp [alSet]
      · simp only [alSet, if_neg h2, List.map_cons, List.mem_cons]
        rw [ih]
        by_cases hm : k ∈ tl.map Prod.fst
        · simp [hm]
        · have hcond : ¬(k = k2 ∨ k ∈ List.map Prod.fst tl) := by
            rintro (hh | hh)
            · exact h2 hh.symm
            · exact hm hh
          rw [if_neg hm, if_neg hcond, List.cons_append]

/-- The endpoint keys after `recordEndpoint`: the templated key is added
exactly when absent (so re-recording a path with the same template leaves
the key set unchanged). -/
theorem recordEndpoint_keys (path method : String) (req : RequestInfo) (res : ResponseInfo)
    (st : StoreState) :
    (recordEndpoint path method req res st).endpoints.map Prod.fst =
      if (method ++ ":" ++ templatePath path) ∈ st.endpoints.map Prod.fst then
        st.endpoints.map Prod.fst
      else st.endpoints.map Prod.fst ++ [method ++ ":" ++ templatePath path] := by
  unfold recordEndpoint recordHAREntry
  exact alSet_keys _ _ _

/-- Related segments (equal, or both purely numeric) template alike. -/
theorem tplChars_rel {a b : List Char}
    (h : a = b ∨ (a ≠ [] ∧ a.all Char.isDigit = true ∧ b ≠ [] ∧ b.all Char.isDigit = true)) :
    tplChars a = tplChars b := by
  rcases h with rfl | ⟨ha1, ha2, hb1, hb2⟩
  · rfl
  · simp [tplChars, ha1, ha2, hb1, hb2]

/-- A purely numeric, non-empty segment is good. -/
theorem goodSegC_of_numeric {b : List Char} (hb1 : b ≠ []) (hb2 : b.all Char.isDigit = true) :
    GoodSegC b := by
  refine ⟨hb1, ?_, ?_, Or.inl hb2⟩ <;>
    · intro c hc he
      have hd := List.all_eq_true.mp hb2 c hc
      rw [he] at hd
      exact absurd hd (by decide)

/-- Along the segment relation, goodness transfers and the templated
segments agree. -/
theorem rel_good_tpl : ∀ {s1 s2 : List (List Char)},
    List.Forall₂ (fun a b => a = b ∨ (a ≠ [] ∧ a.all Char.isDigit = true ∧
      b ≠ [] ∧ b.all Char.isDigit = true)) s1 s2 →
    (∀ s ∈ s1, GoodSegC s) →
    (∀ s ∈ s2, GoodSegC s) ∧ s1.map tplChars = s2.map tplChars := by
  intro s1 s2 hrel
  induction hrel with
  | nil => exact fun _ => ⟨by simp, rfl⟩
  | cons hab htail ih =>
      intro h1
      obtain ⟨ihg, ihm⟩ := ih (fun s hs => h1 s (List.mem_cons_of_mem _ hs))
      constructor
      · intro s hs
        rcases List.mem_cons.mp hs with heq | hs2
        · rcases hab with hab2 | ⟨_, _, hb1, hb2⟩
          · rw [heq, ← hab2]
            exact h1 _ (List.mem_cons_self _ _)
          · rw [heq]
            exact goodSegC_of_numeric hb1 hb2
        · exact ihg s hs2
      · simp [tplChars_rel hab, ihm]

/-- Colon-freeness of a templated path built from colon-free segments. -/
theorem catSegs_tpl_no_colon : ∀ segs : List (List Char),
    (∀ s ∈ segs, ∀ c ∈ s, c ≠ ':') → ∀ c ∈ catSegs (segs.map tplChars), c ≠ ':'
  | [], _, c, hc => by simp [catSegs] at hc
  | s :: rest, h, c, hc => by
      simp only [List.map_cons, catSegs, List.mem_cons, List.mem_append] at hc
      rcases hc with rfl | hc2
      · decide
      · rcases hc2 with hin | hrest
        · have : ∀ x ∈ tplChars s, x ≠ ':' := by
            unfold tplChars
            split
            · intro x hx
              fin_cases hx <;> decide
            · exact h s (List.mem_cons_self _ _)
          exact this c hin
        · exact catSegs_tpl_no_colon rest
            (fun t ht => h t (List.mem_cons_of_mem _ ht)) c hrest

/-- Segment-wise templating of a good path. -/
theorem templatePath_catSegs (segs : List (List Char)) (h : ∀ s ∈ segs, GoodSegC s) :
    templatePath (String.mk (catSegs segs)) = String.mk (catSegs (segs.map tplChars)) := by
  unfold templatePath
  have hdata : (String.mk (catSegs segs)).data = catSegs segs := rfl
  rw [hdata, nrGo_catSegs segs h, crGo_no_colon]
  exact catSegs_tpl_no_colon segs (fun s hs => (h s hs).2.2.1)

instance : DecidablePred GoodSegC := fun cs => by
  unfold GoodSegC
  infer_instance

/-- C5: every purely numeric segment of a concrete path is replaced by the
placeholder `{id}` before the endpoint key is formed (first conjunct:
segment-wise templating of the path), so recording the same method twice
with two good paths that differ only in purely numeric segments leaves
exactly one `EndpointRecord`, keyed by the shared templated path (second
conjunct).  Good segments are non-empty, slash- and colon-free, and either
purely numeric or not digit-led (the regex `\/(\d+)/g` would template a
numeric prefix of a mixed segment too). -/
theorem c5_numeric_templating_collapses_endpoints
    (segs1 segs2 : List (List Char))
    (h1 : ∀ s ∈ segs1, GoodSegC s)
    (hrel : List.Forall₂
      (fun a b => a = b ∨ (a ≠ [] ∧ a.all Char.isDigit = true ∧
        b ≠ [] ∧ b.all Char.isDigit = true)) segs1 segs2)
    (method : String) (req1 req2 : RequestInfo) (res1 res2 : ResponseInfo) :
    templatePath (String.mk (catSegs segs1)) = String.mk (catSegs (segs1.map tplChars)) ∧
    (recordEndpoint (String.mk (catSegs segs2)) method req2 res2
        (recordEndpoint (String.mk (catSegs segs1)) method req1 res1
          emptyStore)).endpoints.map Prod.fst =
      [method ++ ":" ++ templatePath (String.mk (catSegs segs1))] := by
  obtain ⟨h2, hmapeq⟩ := rel_good_tpl hrel h1
  have htpl : templatePath (String.mk (catSegs segs2)) =
      templatePath (String.mk (catSegs segs1)) := by
    rw [templatePath_catSegs segs1 h1, templatePath_catSegs segs2 h2, hmapeq]
  refine ⟨templatePath_catSegs segs1 h1, ?_⟩
  rw [recordEndpoint_keys, recordEndpoint_keys, htpl]
  simp [emptyStore]

/-- C5, witness: GET `/users/123` then GET `/users/456` from a fresh store
leaves exactly the one endpoint key `get:/users/{id}`. -/
theorem c5_witness :
    templatePath (String.mk (catSegs ["users".data, "123".data])) =
      String.mk (catSegs (["users".data, "123".data].map tplChars)) ∧
    (recordEndpoint (String.mk (catSegs ["users".data, "456".data])) "get"
        (⟨[], none, "application/json", none, none⟩ : RequestInfo)
        (⟨200, .null, "application/json", none, none⟩ : ResponseInfo)
        (recordEndpoint (String.mk (catSegs ["users".data, "123".data])) "get"
          (⟨[], none, "application/json", none, none⟩ : RequestInfo)
          (⟨200, .null, "application/json", none, none⟩ : ResponseInfo)
          emptyStore)).endpoints.map Prod.fst =
      ["get" ++ ":" ++ templatePath (String.mk (catSegs ["users".data, "123".data]))] :=
  c5_numeric_templating_collapses_endpoints ["users".data, "123".data]
    ["users".data, "456".data] (by decide)
    (List.Forall₂.cons (Or.inl rfl)
      (List.Forall₂.cons (Or.inr (by decide)) List.Forall₂.nil))
    "get" ⟨[], none, "application/json", none, none⟩ ⟨[], none, "application/json", none, none⟩
    ⟨200, .null, "application/json", none, none⟩ ⟨200, .null, "application/json", none, none⟩

/-! ### C7 — response schemas merge over the full cached history -/

/-- C7: on a call that carries a decoded body (no deferred raw data),
`recordEndpoint` synthesizes the response schema, appends it to the
persistent cache keyed by `(endpoint key, status, content type)`, and
stores as the documented response schema the merge of the **entire** cached
sequence — `deepMergeSchemas` applied to the whole history, not a binary
merge of the previous result with the newest schema. -/
theorem c7_response_schema_merges_full_history
    (path method : String) (req : RequestInfo) (res : ResponseInfo) (st : StoreState)
    (hraw : res.rawData = none) :
    alGet ((method ++ ":" ++ templatePath path) ++ ":" ++ toString res.status ++ ":" ++
        strOr res.contentType "application/json")
      (recordEndpoint path method req res st).schemaCache =
      some ((alGet ((method ++ ":" ++ templatePath path) ++ ":" ++ toString res.status ++ ":" ++
          strOr res.contentType "application/json") st.schemaCache).getD [] ++
        [generateJsonSchema res.body]) ∧
    responseSchemaAt (recordEndpoint path method req res st)
        (method ++ ":" ++ templatePath path) res.status
        (strOr res.contentType "application/json") =
      some (deepMergeSchemas
        ((alGet ((method ++ ":" ++ templatePath path) ++ ":" ++ toString res.status ++ ":" ++
            strOr res.contentType "application/json") st.schemaCache).getD [] ++
          [generateJsonSchema res.body])) := by
  obtain ⟨status, body, contentType, headers, rawData⟩ := res
  simp only at hraw
  subst hraw
  unfold recordEndpoint recordHAREntry responseSchemaAt
  cases headers with
  | none => simp [alGet_alSet_self]
  | some hs =>
      by_cases hl : hs.length ≠ 0 <;> simp [alGet_alSet_self, hl]

/-- C7, witness: two GET `/items` calls with bodies `{"a":1}` and
`{"b":2}`; the second call's cache holds both synthesized schemas and the
stored response schema is the merge of that two-element history. -/
theorem c7_witness :
    alGet ("get:/items" ++ ":" ++ toString 200 ++ ":" ++ strOr "application/json" "application/json")
      (recordEndpoint "/items" "get"
        (⟨[], none, "application/json", none, none⟩ : RequestInfo)
        (⟨200, .obj (.cons "b" (.num 2) .nil), "application/json", none, none⟩ : ResponseInfo)
        (recordEndpoint "/items" "get"
          (⟨[], none, "application/json", none, none⟩ : RequestInfo)
          (⟨200, .obj (.cons "a" (.num 1) .nil), "application/json", none, none⟩ : ResponseInfo)
          emptyStore)).schemaCache =
      some ((alGet ("get:/items" ++ ":" ++ toString 200 ++ ":" ++
          strOr "application/json" "application/json")
          (recordEndpoint "/items" "get"
            (⟨[], none, "application/json", none, none⟩ : RequestInfo)
            (⟨200, .obj (.cons "a" (.num 1) .nil), "application/json", none, none⟩ : ResponseInfo)
            emptyStore).schemaCache).getD [] ++
        [generateJsonSchema (.obj (.cons "b" (.num 2) .nil))]) ∧
    responseSchemaAt
        (recordEndpoint "/items" "get"
          (⟨[], none, "application/json", none, none⟩ : RequestInfo)
          (⟨200, .obj (.cons "b" (.num 2) .nil), "application/json", none, none⟩ : ResponseInfo)
          (recordEndpoint "/items" "get"
            (⟨[], none, "application/json", none, none⟩ : RequestInfo)
            (⟨200, .obj (.cons "a" (.num 1) .nil), "application/json", none, none⟩ : ResponseInfo)
            emptyStore))
        "get:/items" 200 (strOr "application/json" "application/json") =
      some (deepMergeSchemas
        ((alGet ("get:/items" ++ ":" ++ toString 200 ++ ":" ++
            strOr "application/json" "application/json")
            (recordEndpoint "/items" "get"
              (⟨[], none, "application/json", none, none⟩ : RequestInfo)
              (⟨200, .obj (.cons "a" (.num 1) .nil), "application/json", none, none⟩ :
                ResponseInfo)
              emptyStore).schemaCache).getD [] ++
          [generateJsonSchema (.obj (.cons "b" (.num 2) .nil))])) := by
  have h := c7_response_schema_merges_full_history "/items" "get"
    (⟨[], none, "application/json", none, none⟩ : RequestInfo)
    (⟨200, .obj (.cons "b" (.num 2) .nil), "application/json", none, none⟩ : ResponseInfo)
    (recordEndpoint "/items" "get"
      (⟨[], none, "application/json", none, none⟩ : RequestInfo)
      (⟨200, .obj (.cons "a" (.num 1) .nil), "application/json", none, none⟩ : ResponseInfo)
      emptyStore) rfl
  exact ⟨h.1, h.2⟩

/-! ### C8 — security schemes deduplicate by kind, last write wins -/

theorem alSet_nodup_keys {α β : Type} [DecidableEq α] (k : α) (v : β) (l : List (α × β))
    (h : (l.map Prod.fst).Nodup) : ((alSet k v l).map Prod.fst).Nodup := by
  rw [alSet_keys]
  by_cases hm : k ∈ l.map Prod.fst
  · simpa [hm] using h
  · simp [hm, List.nodup_append, h]

/-- Folding same-kind hints always leaves the derived scheme of the most
recent hint under the kind's canonical name. -/
theorem fold_same_kind_last : ∀ (t : SecType) (s : SecurityInfo) (rest : List SecurityInfo)
    (m : List (String × SecScheme)), s.type = t → (∀ x ∈ rest, x.type = t) →
    alGet (canonicalSchemeName t) (addSecuritySchemesFold (s :: rest) m).2 =
      some (deriveScheme ((s :: rest).getLast (by simp)))
  | t, s, [], m, hs, _ => by
      simp only [addSecuritySchemesFold, addSecurityScheme, List.getLast_singleton]
      rw [hs]
      exact alGet_alSet_self _ _ _
  | t, s, s2 :: rest2, m, hs, hrest => by
      have h2 : s2.type = t := hrest s2 (List.mem_cons_self _ _)
      simp only [addSecuritySchemesFold, addSecurityScheme]
      rw [List.getLast_cons (by simp)]
      exact fold_same_kind_last t s2 rest2 _ h2
        (fun x hx => hrest x (List.mem_cons_of_mem _ hx))

/-- Folding hints preserves key uniqueness of the scheme map. -/
theorem fold_nodup_keys : ∀ (hints : List SecurityInfo) (m : List (String × SecScheme)),
    (m.map Prod.fst).Nodup → (((addSecuritySchemesFold hints m).2).map Prod.fst).Nodup
  | [], _, h => h
  | s :: rest, m, h => by
      simp only [addSecuritySchemesFold, addSecurityScheme]
      exact fold_nodup_keys rest _ (alSet_nodup_keys _ _ _ h)

/-- Folding same-kind hints over a map whose key set is exactly the
canonical name keeps that key set. -/
theorem fold_same_kind_keys : ∀ (t : SecType) (hints : List SecurityInfo)
    (m : List (String × SecScheme)), (∀ x ∈ hints, x.type = t) →
    m.map Prod.fst = [canonicalSchemeName t] →
    ((addSecuritySchemesFold hints m).2).map Prod.fst = [canonicalSchemeName t]
  | _, [], _, _, hm => hm
  | t, s :: rest, m, hall, hm => by
      simp only [addSecuritySchemesFold, addSecurityScheme]
      apply fold_same_kind_keys t rest _ (fun x hx => hall x (List.mem_cons_of_mem _ hx))
      rw [hall s (List.mem_cons_self _ _), alSet_keys, hm]
      simp

/-- C8: the canonical scheme name is a function of the hint's kind alone
(`canonicalSchemeName`, line 392), so registering any non-empty same-kind
hint sequence over any starting scheme map stores, under that name, exactly
the definition derived from the **last** hint (first conjunct); starting
from an empty map, the stored scheme set consists of exactly that one
canonical name (second conjunct); and key uniqueness of the scheme map is
preserved (third conjunct). -/
theorem c8_security_scheme_dedup_last_write_wins (t : SecType) (hints : List SecurityInfo)
    (h1 : hints ≠ []) (hall : ∀ s ∈ hints, s.type = t) (m : List (String × SecScheme)) :
    alGet (canonicalSchemeName t) (addSecuritySchemesFold hints m).2 =
      some (deriveScheme (hints.getLast h1)) ∧
    ((addSecuritySchemesFold hints []).2).map Prod.fst = [canonicalSchemeName t] ∧
    ((m.map Prod.fst).Nodup → (((addSecuritySchemesFold hints m).2).map Prod.fst).Nodup) := by
  match hints, h1 with
  | s :: rest, _ =>
      refine ⟨fold_same_kind_last t s rest m (hall s (List.mem_cons_self _ _))
        (fun x hx => hall x (List.mem_cons_of_mem _ hx)), ?_, fold_nodup_keys _ _⟩
      show ((addSecuritySchemesFold (s :: rest) []).2).map Prod.fst = [canonicalSchemeName t]
      simp only [addSecuritySchemesFold, addSecurityScheme]
      apply fold_same_kind_keys t rest _ (fun x hx => hall x (List.mem_cons_of_mem _ hx))
      rw [hall s (List.mem_cons_self _ _)]
      rfl

/-- C8, witness: two apiKey hints with different parameters collapse to the
single scheme `apiKey_`, whose fields come from the second hint. -/
theorem c8_witness :
    alGet (canonicalSchemeName .apiKey)
        (addSecuritySchemesFold
          [⟨.apiKey, some "x-api-key", some "header", none, none, none⟩,
           ⟨.apiKey, some "x-token", some "query", none, none, none⟩] []).2 =
      some (deriveScheme
        ([(⟨.apiKey, some "x-api-key", some "header", none, none, none⟩ : SecurityInfo),
          ⟨.apiKey, some "x-token", some "query", none, none, none⟩].getLast (by simp))) ∧
    ((addSecuritySchemesFold
        [(⟨.apiKey, some "x-api-key", some "header", none, none, none⟩ : SecurityInfo),
         ⟨.apiKey, some "x-token", some "query", none, none, none⟩] []).2).map Prod.fst =
      [canonicalSchemeName .apiKey] ∧
    ((([] : List (String × SecScheme)).map Prod.fst).Nodup →
      (((addSecuritySchemesFold
          [(⟨.apiKey, some "x-api-key", some "header", none, none, none⟩ : SecurityInfo),
           ⟨.apiKey, some "x-token", some "query", none, none, none⟩] []).2).map
        Prod.fst).Nodup) :=
  c8_security_scheme_dedup_last_write_wins .apiKey
    [⟨.apiKey, some "x-api-key", some "header", none, none, none⟩,
     ⟨.apiKey, some "x-token", some "query", none, none, none⟩]
    (by simp) (by intro s hs; fin_cases hs <;> rfl) []

/-! ### C10 — `getOpenAPISpec` consumes the deferred-decode state -/

/-- With an empty raw-data cache every entry passes through unchanged. -/
theorem processHarEntry_empty_cache (gz : String → String) (e : HarEntry) :
    processHarEntry gz [] e = (e, false) := by
  unfold processHarEntry
  split
  · rfl
  · rfl

/-- C10: `getOpenAPISpec()` empties the raw-data cache as a side effect
(first conjunct, via `processRawData`'s final `clear()`); with an empty
cache `processHAREntries` — the work `generateHAR()` does — is the identity
on the store (second conjunct), so no placeholder text is ever replaced on
any later `generateHAR()`; and an exchange recorded with deferred raw bytes
stores its HAR content text as the placeholder string (third conjunct),
which therefore survives forever when the spec is generated first. -/
theorem c10_spec_consumes_deferred_state :
    (∀ (gz : String → String) (st : StoreState),
      (getOpenAPISpecState gz st).rawDataCache = []) ∧
    (∀ (gz : String → String) (st : StoreState), st.rawDataCache = [] →
      processHAREntries gz st = st) ∧
    (∀ (path method : String) (req : RequestInfo) (res : ResponseInfo) (st : StoreState),
      res.rawData.isSome = true →
      (recordEndpoint path method req res st).harEntries.map HarEntry.text =
        st.harEntries.map HarEntry.text ++ [deferredPlaceholder]) := by
  refine ⟨?_, ?_, ?_⟩
  · intro gz st
    unfold getOpenAPISpecState processRawData
    split
    · next hemp => exact List.isEmpty_iff.mp hemp
    · rfl
  · intro gz st hempty
    obtain ⟨eps, ents, sc, ss, rdc⟩ := st
    simp only at hempty
    subst hempty
    unfold processHAREntries processHAREntriesCount
    simp only [List.map_map]
    have : ∀ e : HarEntry, (Prod.fst ∘ processHarEntry gz []) e = e := by
      intro e
      simp [Function.comp, processHarEntry_empty_cache]
    rw [List.map_congr_left (fun e _ => this e)]
    simp
  · intro path method req res st hraw
    obtain ⟨status, body, contentType, headers, rawData⟩ := res
    obtain ⟨raw, hr⟩ := Option.isSome_iff_exists.mp hraw
    simp only at hr
    subst hr
    unfold recordEndpoint recordHAREntry
    simp

/-- The C10/C6 witness scenario: one deferred exchange whose raw body is
the JSON text `{"a":1}`. -/
def c10Store : StoreState :=
  recordEndpoint "/y" "get"
    (⟨[], none, "application/json", none, none⟩ : RequestInfo)
    (⟨200, .null, "application/json", some [("content-type", "application/json")],
      some "\x7b\"a\":1\x7d"⟩ : ResponseInfo)
    emptyStore

/-- C10, witness: in the concrete deferred scenario, generating the spec
first clears the cache, the next HAR generation is a no-op on the store,
and the stored HAR text is the placeholder. -/
theorem c10_witness :
    (getOpenAPISpecState id c10Store).rawDataCache = [] ∧
    processHAREntries id (getOpenAPISpecState id c10Store) = getOpenAPISpecState id c10Store ∧
    (recordEndpoint "/y" "get"
        (⟨[], none, "application/json", none, none⟩ : RequestInfo)
        (⟨200, .null, "application/json", some [("content-type", "application/json")],
          some "\x7b\"a\":1\x7d"⟩ : ResponseInfo)
        emptyStore).harEntries.map HarEntry.text =
      emptyStore.harEntries.map HarEntry.text ++ [deferredPlaceholder] :=
  ⟨c10_spec_consumes_deferred_state.1 id c10Store,
   c10_spec_consumes_deferred_state.2.1 id (getOpenAPISpecState id c10Store)
     (c10_spec_consumes_deferred_state.1 id c10Store),
   c10_spec_consumes_deferred_state.2.2 "/y" "get"
     (⟨[], none, "application/json", none, none⟩ : RequestInfo)
     (⟨200, .null, "application/json", some [("content-type", "application/json")],
        some "\x7b\"a\":1\x7d"⟩ : ResponseInfo)
     emptyStore rfl⟩

/-! ### C6 — deferred decode: cached, stable, but sentinel collisions
re-decode

`generateHAR()` (lines 953-967) runs `processHAREntries()` (lines 614-681)
and returns the processed entry list.  The only guard against re-decoding
an already-processed entry is the string comparison
`entry.response.content.text === '[Content stored but not processed for
performance]'` (line 620): a successful decode caches its result by
overwriting the entry's text in place (lines 668-672), and nothing else
marks the entry as processed. -/

/-- Replace an entry's content text (what a successful decode writes). -/
def harSetText (e : HarEntry) (t : String) : HarEntry :=
  ⟨e.method, e.urlPath, e.requestHeaders, e.queryString, e.postData, e.status, e.statusText,
   e.responseHeaders, e.size, e.mimeType, t⟩

/-- The text a deferred decode would produce for an entry (`none` when the
cache has no raw data for it).  Reads only the entry's immutable routing
and header fields, never its text. -/
def decodeText (gz : String → String)
    (cache : List (String × List (String × RawResponseData))) (e : HarEntry) :
    Option String :=
  match alGet e.urlPath cache with
  | none => none
  | some pm =>
      match alGet (strLower e.method) pm with
      | none => none
      | some rd =>
          if rd.rawData = "" then none
          else
            let text0 :=
              match findHeaderValue "content-encoding" e.responseHeaders with
              | some enc => if strIncludes "gzip" enc then gz rd.rawData else rd.rawData
              | none => rd.rawData
            some
              (if strIncludes "json" e.mimeType then
                match jsonParse text0 with
                | some j => jsStringify j
                | none =>
                    match jsonParse (cleanJsonString text0) with
                    | some j => jsStringify j
                    | none => text0
              else text0)

/-- `processHarEntry`, characterised through `decodeText`. -/
theorem processHarEntry_eq (gz : String → String)
    (cache : List (String × List (String × RawResponseData))) (e : HarEntry) :
    processHarEntry gz cache e =
      if e.text = deferredPlaceholder then
        match decodeText gz cache e with
        | none => (e, false)
        | some t => (harSetText e t, true)
      else (e, false) := by
  unfold processHarEntry decodeText harSetText
  by_cases h : e.text = deferredPlaceholder
  · rw [if_neg (not_not_intro h), if_pos h]
    cases h1 : alGet e.urlPath cache with
    | none => simp
    | some pm =>
        simp only
        cases h2 : alGet (strLower e.method) pm with
        | none => simp
        | some rd =>
            simp only
            by_cases hrd : rd.rawData = "" <;> simp [hrd]
  · rw [if_pos h, if_neg h]

/-- The decode result ignores the entry's text. -/
theorem decodeText_harSetText (gz : String → String)
    (cache : List (String × List (String × RawResponseData))) (e : HarEntry) (t : String) :
    decodeText gz cache (harSetText e t) = decodeText gz cache e := rfl

/-- One decode pass is idempotent on an entry: the decoded text is written
onto the entry, and re-processing reproduces the same entry (even in the
degenerate case where the decoded text equals the placeholder, the
re-decode recomputes the identical text from the unchanged cache). -/
theorem processHarEntry_idem (gz : String → String)
    (cache : List (String × List (String × RawResponseData))) (e : HarEntry) :
    (processHarEntry gz cache (processHarEntry gz cache e).1).1 =
      (processHarEntry gz cache e).1 := by
  rw [processHarEntry_eq gz cache e]
  by_cases h : e.text = deferredPlaceholder
  · rw [if_pos h]
    cases hd : decodeText gz cache e with
    | none =>
        simp only
        rw [processHarEntry_eq, if_pos h, hd]
    | some t =>
        simp only
        rw [processHarEntry_eq]
        by_cases ht : t = deferredPlaceholder
        · rw [if_pos (by simpa [harSetText] using ht), decodeText_harSetText, hd]
          rfl
        · rw [if_neg (by simpa [harSetText] using ht)]
  · rw [if_neg h]
    simp only
    rw [processHarEntry_eq, if_neg h]

/-- The C6 counterexample scenario: a deferred exchange whose raw bytes are
exactly the placeholder sentinel text, with a non-JSON content type, so the
decoded text equals the sentinel. -/
def c6SentinelStore : StoreState :=
  recordEndpoint "/x" "get"
    (⟨[], none, "application/json", none, none⟩ : RequestInfo)
    (⟨200, .null, "text/plain", none, some deferredPlaceholder⟩ : ResponseInfo)
    emptyStore

/-- C6, counterexample.  The first `generateHAR()` pass decodes the entry
(third conjunct: one decode ran) and writes back a text equal to the
placeholder sentinel (second conjunct) — so the line-620 guard
`text === placeholder` still sees the entry as unprocessed, and the second
`generateHAR()` pass decodes it **again** (first conjunct: one decode ran
on the second pass, not zero).  Decoding is therefore not "executed
exactly once", and the second call does not happen "without decoding
again", refuting the claim for this archive entry.  (The output is
nevertheless identical each time — it is the caching, not the stability,
that fails.) -/
theorem c6_counterexample :
    (processHAREntriesCount id (processHAREntries id c6SentinelStore)).2 = 1 ∧
    (processHAREntries id c6SentinelStore).harEntries.map HarEntry.text =
      [deferredPlaceholder] ∧
    (processHAREntriesCount id c6SentinelStore).2 = 1 := by
  exact ⟨by decide, by decide, by decide⟩

/-- C6, amended: decoding is deferred and cached on the entry, and reads
are stable — a second `generateHAR()` call is the identity on the
processed store (first conjunct), and in particular returns the very same
entry list as the first call (second conjunct), hence the same entry
count and byte-identical content text for every entry; each call keeps
the recorded entry count (third conjunct); and the second call decodes
nothing **provided** no entry's first-pass text equals the placeholder
sentinel `'[Content stored but not processed for performance]'` (fourth
conjunct).  The proviso is necessary: an entry whose decoded text
collides with the sentinel defeats the line-620 guard and is re-decoded
on every call (idempotently, with identical output) — see the
counterexample. -/
theorem c6_deferred_decode_cached_and_stable :
    (∀ (gz : String → String) (st : StoreState),
      processHAREntries gz (processHAREntries gz st) = processHAREntries gz st) ∧
    (∀ (gz : String → String) (st : StoreState),
      (generateHAR gz (generateHAR gz st).2).1 = (generateHAR gz st).1) ∧
    (∀ (gz : String → String) (st : StoreState),
      (processHAREntries gz st).harEntries.length = st.harEntries.length) ∧
    (∀ (gz : String → String) (st : StoreState),
      (∀ e ∈ (processHAREntries gz st).harEntries, e.text ≠ deferredPlaceholder) →
      (processHAREntriesCount gz (processHAREntries gz st)).2 = 0) := by
  have hidem : ∀ (gz : String → String) (st : StoreState),
      processHAREntries gz (processHAREntries gz st) = processHAREntries gz st := by
    intro gz st
    obtain ⟨eps, ents, sc, ss, rdc⟩ := st
    unfold processHAREntries processHAREntriesCount
    simp only [List.map_map]
    congr 1
    rw [List.map_congr_left]
    intro e _
    exact processHarEntry_idem gz rdc e
  refine ⟨hidem, ?_, ?_, ?_⟩
  · intro gz st
    show (processHAREntries gz (processHAREntries gz st)).harEntries =
      (processHAREntries gz st).harEntries
    rw [hidem gz st]
  · intro gz st
    unfold processHAREntries processHAREntriesCount
    simp
  · intro gz st h
    unfold processHAREntriesCount
    rw [List.length_eq_zero]
    rw [List.filter_eq_nil_iff]
    intro p hp
    obtain ⟨e, he, hpe⟩ := List.mem_map.mp hp
    have hne := h e he
    rw [← hpe, processHarEntry_eq, if_neg hne]
    simp

/-- C6, witness: for the concrete deferred JSON exchange, repeated HAR
generation is idempotent and returns the same entry list, the entry count
is stable, and — since the decoded text (the normalized JSON) is not the
sentinel — the second call decodes nothing. -/
theorem c6_witness :
    processHAREntries id (processHAREntries id c10Store) = processHAREntries id c10Store ∧
    (generateHAR id (generateHAR id c10Store).2).1 = (generateHAR id c10Store).1 ∧
    (processHAREntries id c10Store).harEntries.length = c10Store.harEntries.length ∧
    (processHAREntriesCount id (processHAREntries id c10Store)).2 = 0 :=
  ⟨c6_deferred_decode_cached_and_stable.1 id c10Store,
   c6_deferred_decode_cached_and_stable.2.1 id c10Store,
   c6_deferred_decode_cached_and_stable.2.2.1 id c10Store,
   c6_deferred_decode_cached_and_stable.2.2.2 id c10Store (by decide)⟩

/-! ### C2 — merge idempotence -/

/-- View of a property chain as a list. -/
def SProps.toList : SProps → List (String × Schema)
  | .nil => []
  | .cons k s rest => (k, s) :: SProps.toList rest

theorem SProps.append_assoc : ∀ a b c : SProps,
    (a.append b).append c = a.append (b.append c)
  | .nil, _, _ => rfl
  | .cons k s rest, b, c => by simp [SProps.append, SProps.append_assoc rest b c]

theorem SProps.nil_append (a : SProps) : SProps.append .nil a = a := rfl

theorem SProps.lookup_append (k : String) : ∀ a b : SProps,
    (a.append b).lookup k =
      match a.lookup k with
      | some v => some v
      | none => b.lookup k
  | .nil, b => by simp [SProps.append, SProps.lookup]
  | .cons k2 s rest, b => by
      by_cases h : k2 = k
      · simp [SProps.append, SProps.lookup, h]
      · simp [SProps.append, SProps.lookup, h, SProps.lookup_append k rest b]

theorem SProps.toList_append : ∀ a b : SProps,
    (a.append b).toList = a.toList ++ b.toList
  | .nil, _ => rfl
  | .cons k s rest, b => by
      simp [SProps.append, SProps.toList, SProps.toList_append rest b]

/-- With unique keys, every stored pair is what its key looks up. -/
theorem SProps.lookup_self : ∀ (P : SProps), (P.toList.map Prod.fst).Nodup →
    ∀ p ∈ P.toList, P.lookup p.1 = some p.2
  | .nil, _, p, hp => by simp [SProps.toList] at hp
  | .cons k s rest, hnd, p, hp => by
      simp only [SProps.toList, List.mem_cons] at hp
      simp only [SProps.toList, List.map_cons, List.nodup_cons] at hnd
      rcases hp with rfl | hp2
      · simp [SProps.lookup]
      · have hk : p.1 ≠ k := by
          intro he
          exact hnd.1 (he ▸ List.mem_map_of_mem Prod.fst hp2)
        simp only [SProps.lookup]
        rw [if_neg (fun hh : k = p.1 => hk hh.symm)]
        exact SProps.lookup_self rest hnd.2 p hp2

/-- Setting a key to the value it already holds changes nothing. -/
theorem SProps.set_noop : ∀ (P : SProps) (k : String) (v : Schema),
    P.lookup k = some v → P.set k v = P
  | .nil, k, v, h => by simp [SProps.lookup] at h
  | .cons k2 s rest, k, v, h => by
      by_cases hk : k2 = k
      · simp only [SProps.lookup, if_pos hk] at h
        obtain rfl : s = v := Option.some.inj h
        simp [SProps.set, hk]
      · simp only [SProps.lookup, if_neg hk] at h
        simp [SProps.set, hk, SProps.set_noop rest k v h]

theorem SProps.append_nil : ∀ a : SProps, a.append .nil = a
  | .nil => rfl
  | .cons k s rest => by simp [SProps.append, SProps.append_nil rest]

/-- The merge loop is a fold: appended pending pairs process in sequence. -/
theorem mlF_append (dm : Schema → Schema → Schema) : ∀ (a b acc : SProps),
    mlF dm (a.append b) acc = mlF dm b (mlF dm a acc)
  | .nil, _, _ => rfl
  | .cons k v rest, b, acc => by
      simp only [SProps.append, mlF]
      cases acc.lookup k <;> exact mlF_append dm rest b _

/-- Inserting pairs whose keys are all fresh appends them verbatim. -/
theorem mlF_fresh (dm : Schema → Schema → Schema) : ∀ (a acc : SProps),
    (∀ p ∈ a.toList, acc.lookup p.1 = none) → ((a.toList.map Prod.fst)).Nodup →
    mlF dm a acc = acc.append a
  | .nil, acc, _, _ => (SProps.append_nil acc).symm
  | .cons k v rest, acc, hfresh, hnd => by
      have hk : acc.lookup k = none := hfresh (k, v) (by simp [SProps.toList])
      simp only [mlF, hk]
      simp only [SProps.toList, List.map_cons, List.nodup_cons] at hnd
      rw [mlF_fresh dm rest (acc.append (.cons k v .nil)) ?_ hnd.2]
      · rw [SProps.append_assoc]
        rfl
      · intro p hp
        rw [SProps.lookup_append]
        have hpk : p.1 ≠ k := by
          intro he
          exact hnd.1 (he ▸ List.mem_map_of_mem Prod.fst hp)
        rw [hfresh p (by simp [SProps.toList, hp])]
        simp only [SProps.lookup]
        rw [if_neg (fun hh : k = p.1 => hpk hh.symm)]

/-- Re-processing pairs the accumulator already stores, with a merge that
is the identity on each of them, changes nothing. -/
theorem mlF_update (dm : Schema → Schema → Schema) : ∀ (a acc : SProps),
    (∀ p ∈ a.toList, acc.lookup p.1 = some p.2 ∧ dm p.2 p.2 = p.2) →
    mlF dm a acc = acc
  | .nil, _, _ => rfl
  | .cons k v rest, acc, h => by
      obtain ⟨hl, hdm⟩ := h (k, v) (by simp [SProps.toList])
      simp only [mlF, hl, hdm]
      rw [SProps.set_noop acc k v hl]
      exact mlF_update dm rest acc (fun p hp => h p (by simp [SProps.toList, hp]))

/-- Schemas on which `deepMergeSchemas` is genuinely idempotent: any
non-object schema, or an object schema of the exact shape the all-objects
merge branch produces — `type: 'object'` with a materialized `properties`
bag (unique keys, merge-stable values) and no other field. -/
inductive MergeStable : Schema → Prop where
  | nonObj (s : Schema) : s.type ≠ .tObject → MergeStable s
  | obj (P : SProps) :
      (P.toList.map Prod.fst).Nodup →
      (∀ p ∈ P.toList, MergeStable p.2) →
      MergeStable (.mk .tObject (some P) none none none none)

/-- On a merge-stable schema, the binary merge of a schema with itself is
the identity at every fuel (fuel 0 already returns its first argument). -/
theorem dm2F_self (fuel : Nat) (v : Schema) (h : MergeStable v) :
    dm2F fuel v v = v := by
  induction h generalizing fuel with
  | nonObj s hs =>
      cases fuel with
      | zero => rfl
      | succ f =>
          simp only [dm2F]
          rw [if_neg (fun hc => hs hc.1)]
          simp
  | obj P hnd hvals ih =>
      cases fuel with
      | zero => rfl
      | succ f =>
          simp only [dm2F]
          rw [if_pos ⟨rfl, rfl⟩]
          have hPd : (Schema.mk .tObject (some P) none none none none).propsD = P := rfl
          rw [hPd]
          have h1 : mlF (dm2F f) P .nil = P := by
            rw [mlF_fresh (dm2F f) P .nil (fun p hp => rfl) hnd]
            exact SProps.nil_append P
          rw [mlF_append (dm2F f) P P .nil, h1,
              mlF_update (dm2F f) P P
                (fun p hp => ⟨SProps.lookup_self P hnd p hp, ih p hp f⟩)]

theorem deepMergeTwo_self (v : Schema) (h : MergeStable v) : deepMergeTwo v v = v :=
  dm2F_self _ v h

/-- Replaying the property bag of a merge-stable object schema any number
of times over an accumulator already holding it changes nothing. -/
theorem mlF_replicate_acc (P : SProps)
    (hnd : (P.toList.map Prod.fst).Nodup)
    (hvals : ∀ p ∈ P.toList, MergeStable p.2) :
    ∀ n : Nat,
      mlF deepMergeTwo
        (propsConcat
          (List.replicate n (Schema.mk .tObject (some P) none none none none))) P = P := by
  intro n
  induction n with
  | zero => rfl
  | succ m ih =>
      rw [List.replicate_succ]
      show mlF deepMergeTwo
        (P.append
          (propsConcat
            (List.replicate m (Schema.mk .tObject (some P) none none none none)))) P = P
      rw [mlF_append,
          mlF_update deepMergeTwo P P
            (fun p hp =>
              ⟨SProps.lookup_self P hnd p hp, deepMergeTwo_self p.2 (hvals p hp)⟩)]
      exact ih

theorem dedupe_foldl_mem (s : Schema) :
    ∀ (n : Nat) (acc : List Schema), s ∈ acc →
      List.foldl (fun acc t => if t ∈ acc then acc else acc ++ [t]) acc
        (List.replicate n s) = acc := by
  intro n
  induction n with
  | zero => intro acc _; rfl
  | succ m ih =>
      intro acc hmem
      rw [List.replicate_succ]
      simp only [List.foldl_cons, if_pos hmem]
      exact ih acc hmem

/-- `dedupe` collapses a nonempty constant list to a singleton. -/
theorem dedupe_replicate (s : Schema) (n : Nat) :
    dedupe (List.replicate (n + 1) s) = [s] := by
  rw [List.replicate_succ]
  simp only [dedupe, List.foldl_cons, List.not_mem_nil, if_false, List.nil_append]
  exact dedupe_foldl_mem s n [s] (by simp)

/-- C2, counterexample.  Merging the two-element constant list
`[{type:'object'}, {type:'object'}]` does not equal merging the singleton:
the all-objects branch (lines 151-168) rebuilds the node as
`{ type: 'object', properties: {...} }`, materializing an empty
`properties` bag that the original schema (with `properties` absent) does
not carry, so `deepMergeSchemas([s, s]) ≠ deepMergeSchemas([s])`. -/
theorem c2_counterexample :
    deepMergeSchemas
        (List.replicate 2 (Schema.mk .tObject none none none none none)) ≠
      deepMergeSchemas [Schema.mk .tObject none none none none none] := by decide

/-- C2, amended: merge idempotence holds on the merge-stable schemas — any
non-object schema, and any object schema that is exactly
`{ type: 'object', properties: P }` with unique keys and merge-stable
property values (the shape the object branch itself produces).  For such
`s` and every `N ≥ 1`, `deepMergeSchemas` of the `N`-element constant list
`[s, ..., s]` equals `deepMergeSchemas([s])`.  (Unrestricted idempotence
fails: see the counterexample, where the object branch materializes the
absent `properties` bag; it likewise drops `example`/`description` fields
and rewrites `oneOf` object schemas.) -/
theorem c2_merge_idempotent_for_stable_schemas (s : Schema) (hs : MergeStable s)
    (n : Nat) (hn : 1 ≤ n) :
    deepMergeSchemas (List.replicate n s) = deepMergeSchemas [s] := by
  cases n with
  | zero => exact absurd hn (by decide)
  | succ m =>
    cases m with
    | zero => rfl
    | succ m2 =>
      cases hs with
      | nonObj _ hne =>
          rw [List.replicate_succ, List.replicate_succ]
          simp only [deepMergeSchemas]
          have h0 : (s.type == SchemaType.tObject) = false := by
            rw [beq_eq_false_iff_ne]
            exact hne
          have hall :
              ((s :: s :: List.replicate m2 s).all
                (fun t => t.type == SchemaType.tObject)) = false := by
            simp [List.all_cons, h0]
          rw [if_neg (by simp [hall])]
          have hd : dedupe (s :: s :: List.replicate m2 s) = [s] := by
            rw [← List.replicate_succ, ← List.replicate_succ]
            exact dedupe_replicate s (m2 + 1)
          rw [hd]
      | obj P hnd hvals =>
          rw [List.replicate_succ, List.replicate_succ]
          simp only [deepMergeSchemas]
          have hall :
              ((Schema.mk .tObject (some P) none none none none ::
                  Schema.mk .tObject (some P) none none none none ::
                  List.replicate m2
                    (Schema.mk .tObject (some P) none none none none)).all
                (fun t => t.type == SchemaType.tObject)) = true := by
            rw [List.all_eq_true]
            intro t ht
            have hts : t = Schema.mk .tObject (some P) none none none none := by
              rcases List.mem_cons.1 ht with h | h
              · exact h
              · rcases List.mem_cons.1 h with h2 | h2
                · exact h2
                · exact List.eq_of_mem_replicate h2
            rw [hts]
            rfl
          rw [if_pos hall]
          have key :
              mlF deepMergeTwo
                (propsConcat
                  (Schema.mk .tObject (some P) none none none none ::
                    Schema.mk .tObject (some P) none none none none ::
                    List.replicate m2
                      (Schema.mk .tObject (some P) none none none none)))
                SProps.nil = P := by
            show mlF deepMergeTwo
              (P.append
                (propsConcat
                  (Schema.mk .tObject (some P) none none none none ::
                    List.replicate m2
                      (Schema.mk .tObject (some P) none none none none))))
              SProps.nil = P
            rw [mlF_append]
            have h1 : mlF deepMergeTwo P SProps.nil = P := by
              rw [mlF_fresh deepMergeTwo P SProps.nil (fun p hp => rfl) hnd]
              exact SProps.nil_append P
            rw [h1, ← List.replicate_succ]
            exact mlF_replicate_acc P hnd hvals (m2 + 1)
          rw [key]

/-- One-property schema exercising both `MergeStable` constructors. -/
def c2sA : Schema := Schema.mk .tString none none none none none

def c2s : Schema := Schema.mk .tObject (some (.cons "a" c2sA .nil)) none none none none

theorem c2_witness :
    1 ≤ 3 ∧ deepMergeSchemas (List.replicate 3 c2s) = deepMergeSchemas [c2s] :=
  ⟨by decide,
   c2_merge_idempotent_for_stable_schemas c2s
     (MergeStable.obj (.cons "a" c2sA .nil) (by decide)
       (fun p hp => by
         have hpe : p = ("a", c2sA) := by
           simpa [SProps.toList] using hp
         rw [hpe]
         exact MergeStable.nonObj c2sA (by decide)))
     3 (by decide)⟩

/-! ### C1 — soundness of synthesis and merge -/

/-- View of an object value's field chain as a list. -/
def JsO.toList : JsO → List (String × Js)
  | .nil => []
  | .cons k v rest => (k, v) :: JsO.toList rest

/-- Number of fields of an object value. -/
def JsO.len : JsO → Nat
  | .nil => 0
  | .cons _ _ rest => 1 + JsO.len rest

/-- Largest `jsSize` among an object's field values. -/
def maxO : JsO → Nat
  | .nil => 0
  | .cons _ v rest => max (jsSize v) (maxO rest)

/-- Number of entries of a property chain. -/
def SProps.len : SProps → Nat
  | .nil => 0
  | .cons _ _ rest => 1 + SProps.len rest

mutual
/-- Array-free well-formed values: no arrays anywhere, and every object
level has pairwise-distinct keys (as any value produced by `JSON.parse`
does). -/
def wfAF : Js → Bool
  | .null | .bool _ | .num _ | .str _ => true
  | .arr _ => false
  | .obj fs => decide ((JsO.keys fs).Nodup) && wfAFO fs
termination_by structural v => v
def wfAFO : JsO → Bool
  | .nil => true
  | .cons _ v rest => wfAF v && wfAFO rest
termination_by structural l => l
end

mutual
/-- The self-merge normal form: merging an object schema with itself
rebuilds it as `{ type: 'object', properties: ... }`, recursively
normalizing the property values and dropping every other field; a
non-object schema is left untouched. -/
def snorm : Schema → Schema
  | .mk t p i o e d =>
      if t = .tObject then
        .mk .tObject
          (some (match p with | some P => snormP P | none => .nil))
          none none none none
      else .mk t p i o e d
termination_by structural s => s
def snormP : SProps → SProps
  | .nil => .nil
  | .cons k v rest => .cons k (snorm v) (snormP rest)
termination_by structural l => l
end

mutual
/-- Well-formed schemas for the merge lemmas: every object-typed node has
pairwise-distinct property keys and well-formed property values (other
fields are unconstrained, and non-object nodes are unconstrained). -/
def wfS : Schema → Bool
  | .mk t p _ _ _ _ =>
      if t = .tObject then
        match p with
        | some P => decide ((SProps.keys P).Nodup) && wfSP P
        | none => true
      else true
termination_by structural s => s
def wfSP : SProps → Bool
  | .nil => true
  | .cons _ v rest => wfS v && wfSP rest
termination_by structural l => l
end

mutual
/-- Property-nesting depth, structurally (shown below to agree with the
fueled `pdepthF` once the fuel covers the schema). -/
def sdm : Schema → Nat
  | .mk _ p _ _ _ _ =>
      1 + (match p with | some P => sdmP P | none => 0)
termination_by structural s => s
def sdmP : SProps → Nat
  | .nil => 0
  | .cons _ v rest => max (sdm v) (sdmP rest)
termination_by structural l => l
end

theorem jsSize_pos : ∀ v : Js, 1 ≤ jsSize v
  | .null | .bool _ | .num _ | .str _ => le_refl 1
  | .arr _ => by simp [jsSize]
  | .obj _ => by simp [jsSize]

theorem sdm_pos (s : Schema) : 1 ≤ sdm s := by
  cases s with
  | mk t p i o e d => cases p <;> simp [sdm]

theorem jsO_len_bound : ∀ fs : JsO, 1 + 2 * JsO.len fs ≤ jsOSize fs
  | .nil => by simp [JsO.len, jsOSize]
  | .cons k v rest => by
      have ih := jsO_len_bound rest
      have hv := jsSize_pos v
      simp only [JsO.len, jsOSize]
      omega

theorem maxO_len_le : ∀ fs : JsO, 2 * JsO.len fs + maxO fs ≤ jsOSize fs
  | .nil => by simp [JsO.len, maxO, jsOSize]
  | .cons k v rest => by
      have ih := maxO_len_le rest
      have hl := jsO_len_bound rest
      have hv := jsSize_pos v
      simp only [JsO.len, maxO, jsOSize]
      omega

theorem jsSize_le_maxO : ∀ (fs : JsO), ∀ p ∈ JsO.toList fs, jsSize p.2 ≤ maxO fs
  | .nil, p, hp => by simp [JsO.toList] at hp
  | .cons k v rest, p, hp => by
      simp only [JsO.toList, List.mem_cons] at hp
      rcases hp with rfl | hp2
      · simp [maxO]
      · exact le_trans (jsSize_le_maxO rest p hp2) (by simp [maxO])

theorem wfAFO_mem : ∀ (fs : JsO), wfAFO fs = true →
    ∀ p ∈ JsO.toList fs, wfAF p.2 = true
  | .nil, _, p, hp => by simp [JsO.toList] at hp
  | .cons k v rest, hwf, p, hp => by
      simp only [wfAFO, Bool.and_eq_true] at hwf
      simp only [JsO.toList, List.mem_cons] at hp
      rcases hp with rfl | hp2
      · exact hwf.1
      · exact wfAFO_mem rest hwf.2 p hp2

theorem wfSP_mem : ∀ (P : SProps), wfSP P = true →
    ∀ p ∈ SProps.toList P, wfS p.2 = true
  | .nil, _, p, hp => by simp [SProps.toList] at hp
  | .cons k v rest, hwf, p, hp => by
      simp only [wfSP, Bool.and_eq_true] at hwf
      simp only [SProps.toList, List.mem_cons] at hp
      rcases hp with rfl | hp2
      · exact hwf.1
      · exact wfSP_mem rest hwf.2 p hp2

theorem sdm_le_sdmP : ∀ (P : SProps), ∀ p ∈ SProps.toList P, sdm p.2 ≤ sdmP P
  | .nil, p, hp => by simp [SProps.toList] at hp
  | .cons k v rest, p, hp => by
      simp only [SProps.toList, List.mem_cons] at hp
      rcases hp with rfl | hp2
      · simp [sdmP]
      · exact le_trans (sdm_le_sdmP rest p hp2) (by simp [sdmP])

theorem sPropsKeys_eq_map : ∀ P : SProps, SProps.keys P = P.toList.map Prod.fst
  | .nil => rfl
  | .cons k v rest => by simp [SProps.keys, SProps.toList, sPropsKeys_eq_map rest]

theorem jsOKeys_eq_map : ∀ fs : JsO, JsO.keys fs = (JsO.toList fs).map Prod.fst
  | .nil => rfl
  | .cons k v rest => by simp [JsO.keys, JsO.toList, jsOKeys_eq_map rest]

/-- In an object with pairwise-distinct keys, two fields with the same
name hold the same value. -/
theorem jsO_agree_of_nodup : ∀ (fs : JsO), (JsO.keys fs).Nodup →
    ∀ p ∈ JsO.toList fs, ∀ q ∈ JsO.toList fs, q.1 = p.1 → q.2 = p.2
  | .nil, _, p, hp => by simp [JsO.toList] at hp
  | .cons k v rest, hnd, p, hp => by
      intro q hq hqp
      rw [jsOKeys_eq_map] at hnd
      simp only [JsO.toList, List.map_cons, List.nodup_cons] at hnd
      simp only [JsO.toList, List.mem_cons] at hp hq
      rcases hp with hpe | hp2
      · rcases hq with hqe | hq2
        · rw [hpe, hqe]
        · exfalso
          apply hnd.1
          have hmm : q.1 ∈ List.map Prod.fst rest.toList :=
            List.mem_map_of_mem Prod.fst hq2
          rw [hqp, hpe] at hmm
          exact hmm
      · rcases hq with hqe | hq2
        · exfalso
          apply hnd.1
          have hmm : p.1 ∈ List.map Prod.fst rest.toList :=
            List.mem_map_of_mem Prod.fst hp2
          rw [← hqp, hqe] at hmm
          exact hmm
        · exact jsO_agree_of_nodup rest
            (by rw [jsOKeys_eq_map]; exact hnd.2) p hp2 q hq2 hqp

/-- `satKeyF` soundness: a key constraint holds when all fields of that
name carry a value the schema is satisfied by. -/
theorem sat_key_sound : ∀ (F : JsO) (k : String) (s : Schema) (vv : Js),
    (∀ f', 2 * jsSize vv ≤ f' → satF f' s vv = true) →
    (∀ p ∈ JsO.toList F, p.1 = k → p.2 = vv) →
    ∀ fuel, 1 + JsO.len F + 2 * jsSize vv ≤ fuel → satKeyF fuel k s F = true
  | .nil, k, s, vv, hs, hag, fuel, hf => by
      obtain ⟨f, rfl⟩ : ∃ f, fuel = f + 1 :=
        ⟨fuel - 1, by have := jsSize_pos vv; omega⟩
      simp [satKeyF]
  | .cons k2 u rest, k, s, vv, hs, hag, fuel, hf => by
      obtain ⟨f, rfl⟩ : ∃ f, fuel = f + 1 :=
        ⟨fuel - 1, by have := jsSize_pos vv; omega⟩
      simp only [satKeyF, Bool.and_eq_true]
      constructor
      · by_cases hk : k2 = k
        · rw [if_pos hk]
          have hu : u = vv := hag (k2, u) (by simp [JsO.toList]) hk
          rw [hu]
          exact hs f (by simp only [JsO.len] at hf; omega)
        · rw [if_neg hk]
      · exact sat_key_sound rest k s vv hs
          (fun p hp => hag p (by simp [JsO.toList, hp]))
          f (by simp only [JsO.len] at hf; omega)

/-- `satPropsF` soundness: a property bag is satisfied when each of its
entries names a schema satisfied by the (unique) value the object holds
under that key. -/
theorem sat_props_sound : ∀ (G : SProps) (F : JsO) (M : Nat),
    (∀ q ∈ SProps.toList G, ∃ vv, jsSize vv ≤ M ∧
        (∀ p ∈ JsO.toList F, p.1 = q.1 → p.2 = vv) ∧
        (∀ f', 2 * jsSize vv ≤ f' → satF f' q.2 vv = true)) →
    ∀ fuel, 1 + SProps.len G + JsO.len F + 2 * M ≤ fuel → satPropsF fuel G F = true
  | .nil, F, M, h, fuel, hf => by
      obtain ⟨f, rfl⟩ : ∃ f, fuel = f + 1 := ⟨fuel - 1, by omega⟩
      simp [satPropsF]
  | .cons k s rest, F, M, h, fuel, hf => by
      obtain ⟨f, rfl⟩ : ∃ f, fuel = f + 1 := ⟨fuel - 1, by omega⟩
      simp only [satPropsF, Bool.and_eq_true]
      obtain ⟨vv, hvM, hag, hsat⟩ := h (k, s) (by simp [SProps.toList])
      refine ⟨?_, ?_⟩
      · exact sat_key_sound F k s vv hsat hag f
          (by simp only [SProps.len] at hf; omega)
      · exact sat_props_sound rest F M
          (fun q hq => h q (by simp [SProps.toList, hq])) f
          (by simp only [SProps.len] at hf; omega)

theorem genProps_toList : ∀ fs : JsO,
    SProps.toList (genProps fs) =
      (JsO.toList fs).map (fun p => (p.1, generateJsonSchema p.2))
  | .nil => rfl
  | .cons k v rest => by
      simp [genProps, SProps.toList, JsO.toList, genProps_toList rest]

theorem snormP_toList : ∀ P : SProps,
    SProps.toList (snormP P) = (SProps.toList P).map (fun q => (q.1, snorm q.2))
  | .nil => rfl
  | .cons k v rest => by simp [snormP, SProps.toList, snormP_toList rest]

theorem genProps_len : ∀ fs : JsO, SProps.len (genProps fs) = JsO.len fs
  | .nil => rfl
  | .cons k v rest => by simp [genProps, SProps.len, JsO.len, genProps_len rest]

theorem snormP_len : ∀ P : SProps, SProps.len (snormP P) = SProps.len P
  | .nil => rfl
  | .cons k v rest => by simp [snormP, SProps.len, snormP_len rest]

theorem genProps_keys : ∀ fs : JsO, SProps.keys (genProps fs) = JsO.keys fs
  | .nil => rfl
  | .cons k v rest => by simp [genProps, SProps.keys, JsO.keys, genProps_keys rest]

theorem snormP_keys : ∀ P : SProps, SProps.keys (snormP P) = SProps.keys P
  | .nil => rfl
  | .cons k v rest => by simp [snormP, SProps.keys, snormP_keys rest]

/-- Soundness of synthesis on array-free well-formed values, fueled form:
the synthesized schema is satisfied by the value itself. -/
theorem gen_sound_aux : ∀ (n : Nat) (v : Js), jsSize v ≤ n → wfAF v = true →
    ∀ fuel, 2 * jsSize v ≤ fuel → satF fuel (generateJsonSchema v) v = true := by
  intro n
  induction n with
  | zero => intro v hv; have := jsSize_pos v; omega
  | succ m ih =>
      intro v hv hwf fuel hf
      cases v with
      | null =>
          obtain ⟨f, rfl⟩ : ∃ f, fuel = f + 1 :=
            ⟨fuel - 1, by simp [jsSize] at hf; omega⟩
          simp [generateJsonSchema, satF, typeOk]
      | bool b =>
          obtain ⟨f, rfl⟩ : ∃ f, fuel = f + 1 :=
            ⟨fuel - 1, by simp [jsSize] at hf; omega⟩
          simp [generateJsonSchema, satF, typeOk]
      | str s =>
          obtain ⟨f, rfl⟩ : ∃ f, fuel = f + 1 :=
            ⟨fuel - 1, by simp [jsSize] at hf; omega⟩
          simp [generateJsonSchema, satF, typeOk]
      | num q =>
          obtain ⟨f, rfl⟩ : ∃ f, fuel = f + 1 :=
            ⟨fuel - 1, by simp [jsSize] at hf; omega⟩
          cases hq : q.den == 1 with
          | true =>
              have hg : generateJsonSchema (Js.num q) =
                  .mk .tInteger none none none (some (.num q)) none := by
                simp [generateJsonSchema, hq]
              rw [hg]
              simp [satF, typeOk, hq]
          | false =>
              have hg : generateJsonSchema (Js.num q) =
                  .mk .tNumber none none none (some (.num q)) none := by
                simp [generateJsonSchema, hq]
              rw [hg]
              simp [satF, typeOk]
      | arr xs => simp [wfAF] at hwf
      | obj fs =>
          simp only [wfAF, Bool.and_eq_true, decide_eq_true_eq] at hwf
          obtain ⟨hnd, hwfo⟩ := hwf
          obtain ⟨f, rfl⟩ : ∃ f, fuel = f + 1 :=
            ⟨fuel - 1, by have := jsSize_pos (Js.obj fs); omega⟩
          simp only [generateJsonSchema, satF, typeOk, Bool.and_eq_true,
            Bool.true_and, and_true]
          refine sat_props_sound (genProps fs) fs (maxO fs) ?_ f ?_
          · intro q hq
            rw [genProps_toList] at hq
            obtain ⟨p, hp, rfl⟩ := List.mem_map.1 hq
            refine ⟨p.2, jsSize_le_maxO fs p hp, ?_, ?_⟩
            · intro r hr hrk
              exact jsO_agree_of_nodup fs hnd p hp r hr hrk
            · intro f' hf'
              have hszp : jsSize p.2 ≤ m := by
                have h1 := jsSize_le_maxO fs p hp
                have h2 := maxO_len_le fs
                simp only [jsSize] at hv
                omega
              exact ih p.2 hszp (wfAFO_mem fs hwfo p hp) f' hf'
          · have h2 := maxO_len_le fs
            rw [genProps_len]
            simp only [jsSize] at hf
            omega

/-- Soundness of the self-merge normal form of a synthesized schema on
array-free well-formed values, fueled form. -/
theorem snorm_gen_sound_aux : ∀ (n : Nat) (v : Js), jsSize v ≤ n → wfAF v = true →
    ∀ fuel, 2 * jsSize v ≤ fuel →
      satF fuel (snorm (generateJsonSchema v)) v = true := by
  intro n
  induction n with
  | zero => intro v hv; have := jsSize_pos v; omega
  | succ m ih =>
      intro v hv hwf fuel hf
      cases v with
      | null =>
          have hg : snorm (generateJsonSchema Js.null) = generateJsonSchema Js.null := by
            simp [generateJsonSchema, snorm]
          rw [hg]
          exact gen_sound_aux (m + 1) Js.null hv hwf fuel hf
      | bool b =>
          have hg : snorm (generateJsonSchema (Js.bool b)) =
              generateJsonSchema (Js.bool b) := by
            simp [generateJsonSchema, snorm]
          rw [hg]
          exact gen_sound_aux (m + 1) (Js.bool b) hv hwf fuel hf
      | str s =>
          have hg : snorm (generateJsonSchema (Js.str s)) =
              generateJsonSchema (Js.str s) := by
            simp [generateJsonSchema, snorm]
          rw [hg]
          exact gen_sound_aux (m + 1) (Js.str s) hv hwf fuel hf
      | num q =>
          have hg : snorm (generateJsonSchema (Js.num q)) =
              generateJsonSchema (Js.num q) := by
            cases hq : q.den == 1 <;> simp [generateJsonSchema, hq, snorm]
          rw [hg]
          exact gen_sound_aux (m + 1) (Js.num q) hv hwf fuel hf
      | arr xs => simp [wfAF] at hwf
      | obj fs =>
          simp only [wfAF, Bool.and_eq_true, decide_eq_true_eq] at hwf
          obtain ⟨hnd, hwfo⟩ := hwf
          obtain ⟨f, rfl⟩ : ∃ f, fuel = f + 1 :=
            ⟨fuel - 1, by have := jsSize_pos (Js.obj fs); omega⟩
          have hg : snorm (generateJsonSchema (Js.obj fs)) =
              .mk .tObject (some (snormP (genProps fs))) none none none none := by
            simp [generateJsonSchema, snorm]
          rw [hg]
          simp only [satF, typeOk, Bool.and_eq_true, Bool.true_and, and_true]
          refine sat_props_sound (snormP (genProps fs)) fs (maxO fs) ?_ f ?_
          · intro q hq
            rw [snormP_toList, genProps_toList] at hq
            obtain ⟨r, hr, rfl⟩ := List.mem_map.1 hq
            obtain ⟨p, hp, rfl⟩ := List.mem_map.1 hr
            refine ⟨p.2, jsSize_le_maxO fs p hp, ?_, ?_⟩
            · intro r2 hr2 hrk
              exact jsO_agree_of_nodup fs hnd p hp r2 hr2 hrk
            · intro f' hf'
              have hszp : jsSize p.2 ≤ m := by
                have h1 := jsSize_le_maxO fs p hp
                have h2 := maxO_len_le fs
                simp only [jsSize] at hv
                omega
              exact ih p.2 hszp (wfAFO_mem fs hwfo p hp) f' hf'
          · have h2 := maxO_len_le fs
            rw [snormP_len, genProps_len]
            simp only [jsSize] at hf
            omega

theorem SProps.lookup_set_ne : ∀ (P : SProps) (k k2 : String) (w : Schema),
    k2 ≠ k → (P.set k w).lookup k2 = P.lookup k2
  | .nil, k, k2, w, h => by
      simp only [SProps.set, SProps.lookup]
      rw [if_neg (fun hh : k = k2 => h hh.symm)]
  | .cons k3 s rest, k, k2, w, h => by
      by_cases hk3 : k3 = k
      · simp only [SProps.set, if_pos hk3, SProps.lookup]
        rw [if_neg (fun hh : k3 = k2 => h (hh.symm.trans hk3))]
        rw [if_neg (fun hh : k3 = k2 => h (hh.symm.trans hk3))]
      · simp only [SProps.set, if_neg hk3, SProps.lookup]
        by_cases hk32 : k3 = k2
        · rw [if_pos hk32, if_pos hk32]
        · rw [if_neg hk32, if_neg hk32]
          exact SProps.lookup_set_ne rest k k2 w h

theorem SProps.set_head (k : String) (v w : Schema) (rest : SProps) :
    (SProps.cons k v rest).set k w = .cons k w rest := by
  simp [SProps.set]

theorem SProps.set_append_right : ∀ (A B : SProps) (k : String) (w : Schema),
    A.lookup k = none → (A.append B).set k w = A.append (B.set k w)
  | .nil, B, k, w, _ => rfl
  | .cons k2 s rest, B, k, w, h => by
      simp only [SProps.lookup] at h
      by_cases hk2 : k2 = k
      · rw [if_pos hk2] at h; exact absurd h (by simp)
      · rw [if_neg hk2] at h
        simp only [SProps.append, SProps.set, if_neg hk2]
        rw [SProps.set_append_right rest B k w h]

/-- The per-key update loop written as a fold of in-place sets. -/
def updAll (g : Schema → Schema) : SProps → SProps → SProps
  | .nil, acc => acc
  | .cons k v rest, acc => updAll g rest (acc.set k (g v))

/-- When every pending pair is already stored, the merge loop is the update
loop for the self-merge `g`. -/
theorem mlF_to_updAll : ∀ (dm : Schema → Schema → Schema) (g : Schema → Schema)
    (P acc : SProps),
    (∀ p ∈ P.toList, acc.lookup p.1 = some p.2 ∧ dm p.2 p.2 = g p.2) →
    (P.toList.map Prod.fst).Nodup →
    mlF dm P acc = updAll g P acc
  | dm, g, .nil, acc, _, _ => rfl
  | dm, g, .cons k v rest, acc, h, hnd => by
      obtain ⟨hl, hdm⟩ := h (k, v) (by simp [SProps.toList])
      simp only [mlF, hl, hdm, updAll]
      simp only [SProps.toList, List.map_cons, List.nodup_cons] at hnd
      refine mlF_to_updAll dm g rest (acc.set k (g v)) ?_ hnd.2
      intro p hp
      have hpk : p.1 ≠ k := fun he => hnd.1 (he ▸ List.mem_map_of_mem Prod.fst hp)
      rw [SProps.lookup_set_ne acc k p.1 (g v) hpk]
      exact h p (by simp [SProps.toList, hp])

/-- Re-processing pairs whose `g`-image the accumulator already stores,
with a merge that fixes each image, changes nothing. -/
theorem mlF_stable_mapped : ∀ (dm : Schema → Schema → Schema)
    (g : Schema → Schema) (P acc : SProps),
    (∀ p ∈ P.toList, acc.lookup p.1 = some (g p.2) ∧ dm (g p.2) p.2 = g p.2) →
    mlF dm P acc = acc
  | dm, g, .nil, acc, _ => rfl
  | dm, g, .cons k v rest, acc, h => by
      obtain ⟨hl, hdm⟩ := h (k, v) (by simp [SProps.toList])
      simp only [mlF, hl, hdm]
      rw [SProps.set_noop acc k (g v) hl]
      exact mlF_stable_mapped dm g rest acc
        (fun p hp => h p (by simp [SProps.toList, hp]))

/-- Updating every key of a fresh tail in place normalizes it entrywise. -/
theorem updAll_snorm_append : ∀ (P pre : SProps),
    (∀ p ∈ P.toList, pre.lookup p.1 = none) →
    (P.toList.map Prod.fst).Nodup →
    updAll snorm P (pre.append P) = pre.append (snormP P)
  | .nil, pre, _, _ => by simp [updAll, snormP, SProps.append_nil]
  | .cons k v rest, pre, hfr, hnd => by
      simp only [updAll]
      have hk : pre.lookup k = none := hfr (k, v) (by simp [SProps.toList])
      rw [SProps.set_append_right pre _ k (snorm v) hk, SProps.set_head]
      have hsplit : pre.append (.cons k (snorm v) rest) =
          (pre.append (.cons k (snorm v) .nil)).append rest := by
        rw [SProps.append_assoc]
        rfl
      rw [hsplit]
      simp only [SProps.toList, List.map_cons, List.nodup_cons] at hnd
      rw [updAll_snorm_append rest (pre.append (.cons k (snorm v) .nil)) ?_ hnd.2]
      · rw [SProps.append_assoc]
        rfl
      · intro p hp
        have hpk : p.1 ≠ k := fun he => hnd.1 (he ▸ List.mem_map_of_mem Prod.fst hp)
        rw [SProps.lookup_append]
        rw [hfr p (by simp [SProps.toList, hp])]
        simp only [SProps.lookup]
        rw [if_neg (fun hh : k = p.1 => hpk hh.symm)]

theorem snormP_lookup : ∀ (P : SProps) (k : String),
    (snormP P).lookup k = Option.map snorm (P.lookup k)
  | .nil, k => rfl
  | .cons k2 v rest, k => by
      simp only [snormP, SProps.lookup]
      by_cases h : k2 = k
      · rw [if_pos h, if_pos h]
        rfl
      · rw [if_neg h, if_neg h]
        exact snormP_lookup rest k

theorem schemaSize_pos (s : Schema) : 1 ≤ schemaSize s := by
  cases s with
  | mk t p i o e d =>
      simp only [schemaSize]
      omega

theorem sPropsSize_pos (P : SProps) : 1 ≤ sPropsSize P := by
  cases P with
  | nil => simp [sPropsSize]
  | cons k v rest =>
      simp only [sPropsSize]
      omega

theorem pdPropsF_nil : ∀ f : Nat, pdPropsF f SProps.nil = 0 := by
  intro f
  cases f <;> rfl

/-- With fuel covering the schema, the fueled depth equals the structural
depth. -/
theorem pdepth_agree : ∀ fuel : Nat,
    (∀ s : Schema, schemaSize s ≤ fuel → pdepthF fuel s = sdm s) ∧
    (∀ P : SProps, sPropsSize P ≤ fuel → pdPropsF fuel P = sdmP P) := by
  intro fuel
  induction fuel with
  | zero =>
      constructor
      · intro s h
        exact absurd h (by have := schemaSize_pos s; omega)
      · intro P h
        exact absurd h (by have := sPropsSize_pos P; omega)
  | succ f ih =>
      constructor
      · intro s hs
        cases s with
        | mk t p i o e d =>
            simp only [pdepthF]
            cases p with
            | none =>
                rw [show (Schema.mk t none i o e d).propsD = SProps.nil from rfl]
                rw [pdPropsF_nil]
                simp [sdm]
            | some P =>
                rw [show (Schema.mk t (some P) i o e d).propsD = P from rfl]
                have hP : sPropsSize P ≤ f := by
                  simp only [schemaSize, sPropsOSize] at hs
                  omega
                rw [ih.2 P hP]
                simp [sdm]
      · intro P hP
        cases P with
        | nil =>
            rw [pdPropsF_nil]
            simp [sdmP]
        | cons k v rest =>
            have h1 : schemaSize v ≤ f := by
              simp only [sPropsSize] at hP
              omega
            have h2 : sPropsSize rest ≤ f := by
              have := schemaSize_pos v
              simp only [sPropsSize] at hP
              omega
            simp only [pdPropsF, sdmP]
            rw [ih.1 v h1, ih.2 rest h2]

theorem pdepth_eq_sdm (s : Schema) : pdepth s = sdm s :=
  (pdepth_agree (schemaSize s)).1 s le_rfl

/-- Self-merge computes the normal form, and re-merging the normal form
with the original absorbs, at any sufficient fuel. -/
theorem dm2F_snorm : ∀ fuel : Nat,
    (∀ s : Schema, wfS s = true → sdm s ≤ fuel → dm2F fuel s s = snorm s) ∧
    (∀ s : Schema, wfS s = true → sdm s ≤ fuel → dm2F fuel (snorm s) s = snorm s) := by
  intro fuel
  induction fuel with
  | zero =>
      constructor <;> intro s hwf hd <;>
        exact absurd hd (by have := sdm_pos s; omega)
  | succ f ih =>
      constructor
      · intro s hwf hd
        cases s with
        | mk t p i o e d =>
            by_cases ht : t = .tObject
            · subst ht
              cases p with
              | none =>
                  simp only [dm2F]
                  rw [if_pos ⟨rfl, rfl⟩]
                  rfl
              | some P =>
                  have hw : (SProps.keys P).Nodup ∧ wfSP P = true := by
                    simpa [wfS] using hwf
                  have hnd' : (P.toList.map Prod.fst).Nodup := by
                    rw [← sPropsKeys_eq_map]
                    exact hw.1
                  have hsdm : sdm (Schema.mk .tObject (some P) i o e d) = 1 + sdmP P := by
                    simp [sdm]
                  have hstab : ∀ p ∈ SProps.toList P,
                      SProps.lookup p.1 P = some p.2 ∧ dm2F f p.2 p.2 = snorm p.2 := by
                    intro p hp
                    refine ⟨SProps.lookup_self P hnd' p hp, ?_⟩
                    apply ih.1 p.2 (wfSP_mem P hw.2 p hp)
                    have hle := sdm_le_sdmP P p hp
                    omega
                  simp only [dm2F]
                  rw [if_pos ⟨rfl, rfl⟩]
                  rw [show (Schema.mk .tObject (some P) i o e d).propsD = P from rfl]
                  rw [mlF_append]
                  have h1 : mlF (dm2F f) P SProps.nil = P := by
                    rw [mlF_fresh (dm2F f) P SProps.nil (fun p hp => rfl) hnd']
                    exact SProps.nil_append P
                  rw [h1]
                  rw [mlF_to_updAll (dm2F f) snorm P P hstab hnd']
                  have h2 : updAll snorm P P = SProps.append .nil (snormP P) :=
                    updAll_snorm_append P SProps.nil (fun p hp => rfl) hnd'
                  rw [h2]
                  simp [snorm, SProps.nil_append]
            · have hsn : snorm (Schema.mk t p i o e d) = Schema.mk t p i o e d := by
                cases p <;> simp [snorm, ht]
              rw [hsn]
              simp only [dm2F]
              rw [if_neg (fun hc => ht hc.1)]
              simp
      · intro s hwf hd
        cases s with
        | mk t p i o e d =>
            by_cases ht : t = .tObject
            · subst ht
              cases p with
              | none =>
                  have hsn : snorm (Schema.mk .tObject none i o e d) =
                      .mk .tObject (some SProps.nil) none none none none := by
                    simp [snorm]
                  rw [hsn]
                  simp only [dm2F]
                  rw [if_pos ⟨rfl, rfl⟩]
                  rfl
              | some P =>
                  have hw : (SProps.keys P).Nodup ∧ wfSP P = true := by
                    simpa [wfS] using hwf
                  have hnd' : (P.toList.map Prod.fst).Nodup := by
                    rw [← sPropsKeys_eq_map]
                    exact hw.1
                  have hnds : ((snormP P).toList.map Prod.fst).Nodup := by
                    rw [← sPropsKeys_eq_map, snormP_keys]
                    exact hw.1
                  have hsdm : sdm (Schema.mk .tObject (some P) i o e d) = 1 + sdmP P := by
                    simp [sdm]
                  have hstab : ∀ p ∈ SProps.toList P,
                      SProps.lookup p.1 (snormP P) = some (snorm p.2) ∧
                        dm2F f (snorm p.2) p.2 = snorm p.2 := by
                    intro p hp
                    constructor
                    · rw [snormP_lookup, SProps.lookup_self P hnd' p hp]
                      rfl
                    · apply ih.2 p.2 (wfSP_mem P hw.2 p hp)
                      have hle := sdm_le_sdmP P p hp
                      omega
                  have hsn : snorm (Schema.mk .tObject (some P) i o e d) =
                      .mk .tObject (some (snormP P)) none none none none := by
                    simp [snorm]
                  rw [hsn]
                  simp only [dm2F]
                  rw [if_pos ⟨rfl, rfl⟩]
                  rw [show (Schema.mk .tObject (some (snormP P))
                      none none none none).propsD = snormP P from rfl]
                  rw [show (Schema.mk .tObject (some P) i o e d).propsD = P from rfl]
                  rw [mlF_append]
                  have h1 : mlF (dm2F f) (snormP P) SProps.nil = snormP P := by
                    rw [mlF_fresh (dm2F f) (snormP P) SProps.nil (fun p hp => rfl) hnds]
                    exact SProps.nil_append (snormP P)
                  rw [h1]
                  rw [mlF_stable_mapped (dm2F f) snorm P (snormP P) hstab]
            · have hsn : snorm (Schema.mk t p i o e d) = Schema.mk t p i o e d := by
                cases p <;> simp [snorm, ht]
              rw [hsn]
              simp only [dm2F]
              rw [if_neg (fun hc => ht hc.1)]
              simp

theorem deepMergeTwo_self_snorm (s : Schema) (h : wfS s = true) :
    deepMergeTwo s s = snorm s := by
  apply (dm2F_snorm _).1 s h
  have := pdepth_eq_sdm s
  omega

theorem deepMergeTwo_snorm_absorb (s : Schema) (h : wfS s = true) :
    deepMergeTwo (snorm s) s = snorm s := by
  apply (dm2F_snorm _).2 s h
  have := pdepth_eq_sdm s
  omega

theorem wfSP_of_forall : ∀ P : SProps,
    (∀ p ∈ SProps.toList P, wfS p.2 = true) → wfSP P = true
  | .nil, _ => rfl
  | .cons k v rest, h => by
      simp only [wfSP, Bool.and_eq_true]
      exact ⟨h (k, v) (by simp [SProps.toList]),
        wfSP_of_forall rest (fun p hp => h p (by simp [SProps.toList, hp]))⟩

/-- Schemas synthesized from array-free well-formed values are well formed
for the merge lemmas. -/
theorem wfS_gen : ∀ (n : Nat) (v : Js), jsSize v ≤ n → wfAF v = true →
    wfS (generateJsonSchema v) = true := by
  intro n
  induction n with
  | zero => intro v hv; have := jsSize_pos v; omega
  | succ m ih =>
      intro v hv hwf
      cases v with
      | null => simp [generateJsonSchema, wfS]
      | bool b => simp [generateJsonSchema, wfS]
      | str s => simp [generateJsonSchema, wfS]
      | num q => cases hq : q.den == 1 <;> simp [generateJsonSchema, hq, wfS]
      | arr xs => simp [wfAF] at hwf
      | obj fs =>
          simp only [wfAF, Bool.and_eq_true, decide_eq_true_eq] at hwf
          obtain ⟨hnd, hwfo⟩ := hwf
          simp only [generateJsonSchema]
          have hrw : wfS (Schema.mk .tObject (some (genProps fs)) none none
              (some (Js.obj fs)) none) =
              (decide ((SProps.keys (genProps fs)).Nodup) && wfSP (genProps fs)) := by
            simp [wfS]
          rw [hrw]
          simp only [Bool.and_eq_true, decide_eq_true_eq]
          refine ⟨by rw [genProps_keys]; exact hnd, wfSP_of_forall _ ?_⟩
          intro p hp
          rw [genProps_toList] at hp
          obtain ⟨r, hr, rfl⟩ := List.mem_map.1 hp
          have hszr : jsSize r.2 ≤ m := by
            have h1 := jsSize_le_maxO fs r hr
            have h2 := maxO_len_le fs
            simp only [jsSize] at hv
            omega
          exact ih r.2 hszr (wfAFO_mem fs hwfo r hr)

theorem jsOSize_pos (fs : JsO) : 1 ≤ jsOSize fs := by
  cases fs with
  | nil => simp [jsOSize]
  | cons k v rest =>
      simp only [jsOSize]
      omega

/-- The value's size is covered by its synthesized schema's size (and by
the size of that schema's self-merge normal form), so the default fuel of
`satisfies` is sufficient. -/
theorem gen_size_le : ∀ n : Nat,
    (∀ v : Js, jsSize v ≤ n → wfAF v = true →
      jsSize v ≤ schemaSize (generateJsonSchema v) ∧
      jsSize v ≤ schemaSize (snorm (generateJsonSchema v))) ∧
    (∀ fs : JsO, jsOSize fs ≤ n → wfAFO fs = true →
      jsOSize fs ≤ sPropsSize (genProps fs) ∧
      jsOSize fs ≤ sPropsSize (snormP (genProps fs))) := by
  intro n
  induction n with
  | zero =>
      constructor
      · intro v hv
        exact absurd hv (by have := jsSize_pos v; omega)
      · intro fs hfs
        exact absurd hfs (by have := jsOSize_pos fs; omega)
  | succ m ih =>
      constructor
      · intro v hv hwf
        cases v with
        | null => constructor <;> decide
        | bool b =>
            have hsn : snorm (generateJsonSchema (Js.bool b)) =
                generateJsonSchema (Js.bool b) := by
              simp [generateJsonSchema, snorm]
            rw [hsn]
            constructor <;>
              simp [generateJsonSchema, schemaSize, sPropsOSize,
                sItemsOSize, sListOSize, jsSize]
        | str s =>
            have hsn : snorm (generateJsonSchema (Js.str s)) =
                generateJsonSchema (Js.str s) := by
              simp [generateJsonSchema, snorm]
            rw [hsn]
            constructor <;>
              simp [generateJsonSchema, schemaSize, sPropsOSize,
                sItemsOSize, sListOSize, jsSize]
        | num q =>
            have hsn : snorm (generateJsonSchema (Js.num q)) =
                generateJsonSchema (Js.num q) := by
              cases hq : q.den == 1 <;> simp [generateJsonSchema, hq, snorm]
            rw [hsn]
            cases hq : q.den == 1 <;>
              constructor <;>
                simp [generateJsonSchema, hq, schemaSize, sPropsOSize,
                  sItemsOSize, sListOSize, jsSize]
        | arr xs => simp [wfAF] at hwf
        | obj fs =>
            simp only [wfAF, Bool.and_eq_true, decide_eq_true_eq] at hwf
            obtain ⟨hnd, hwfo⟩ := hwf
            have hm : jsOSize fs ≤ m := by
              simp only [jsSize] at hv
              omega
            have hih := ih.2 fs hm hwfo
            have hsn : snorm (generateJsonSchema (Js.obj fs)) =
                .mk .tObject (some (snormP (genProps fs))) none none none none := by
              simp [generateJsonSchema, snorm]
            have hg : generateJsonSchema (Js.obj fs) =
                .mk .tObject (some (genProps fs)) none none (some (.obj fs)) none := by
              simp [generateJsonSchema]
            rw [hsn, hg]
            simp only [schemaSize, sPropsOSize, sItemsOSize, sListOSize, jsSize]
            omega
      · intro fs hfs hwf
        cases fs with
        | nil => constructor <;> decide
        | cons k v rest =>
            simp only [wfAFO, Bool.and_eq_true] at hwf
            obtain ⟨hwv, hwr⟩ := hwf
            have hv : jsSize v ≤ m := by
              have := jsOSize_pos rest
              simp only [jsOSize] at hfs
              omega
            have hr : jsOSize rest ≤ m := by
              have := jsSize_pos v
              simp only [jsOSize] at hfs
              omega
            have hihv := ih.1 v hv hwv
            have hihr := ih.2 rest hr hwr
            simp only [genProps, snormP, sPropsSize, jsOSize]
            omega

/-- Satisfaction of a bare object schema, reduced to its property bag. -/
theorem sat_obj_schema (G : SProps) (fs : JsO) (M : Nat)
    (h : ∀ q ∈ SProps.toList G, ∃ vv, jsSize vv ≤ M ∧
        (∀ p ∈ JsO.toList fs, p.1 = q.1 → p.2 = vv) ∧
        (∀ f', 2 * jsSize vv ≤ f' → satF f' q.2 vv = true))
    (fuel : Nat) (hf : 2 + SProps.len G + JsO.len fs + 2 * M ≤ fuel) :
    satF fuel (.mk .tObject (some G) none none none none) (.obj fs) = true := by
  obtain ⟨f, rfl⟩ : ∃ f, fuel = f + 1 := ⟨fuel - 1, by omega⟩
  simp only [satF, typeOk, Bool.and_eq_true, Bool.true_and, and_true]
  exact sat_props_sound G fs M h f (by omega)

/-- Synthesis soundness at the checker's own fuel. -/
theorem gen_satisfies (v : Js) (hwf : wfAF v = true) :
    satisfies (generateJsonSchema v) v = true := by
  unfold satisfies
  apply gen_sound_aux (jsSize v) v le_rfl hwf
  have h1 := ((gen_size_le (jsSize v)).1 v le_rfl hwf).1
  omega

/-- The merged object schema (entrywise normal form of the synthesized
property bag) is satisfied by the sampled object. -/
theorem merged_obj_satisfies (fs : JsO) (hnd : (JsO.keys fs).Nodup)
    (hwfo : wfAFO fs = true) :
    satisfies (.mk .tObject (some (snormP (genProps fs))) none none none none)
      (.obj fs) = true := by
  unfold satisfies
  apply sat_obj_schema (snormP (genProps fs)) fs (maxO fs) ?_ _ ?_
  · intro q hq
    rw [snormP_toList, genProps_toList] at hq
    obtain ⟨r, hr, rfl⟩ := List.mem_map.1 hq
    obtain ⟨p, hp, rfl⟩ := List.mem_map.1 hr
    refine ⟨p.2, jsSize_le_maxO fs p hp, ?_, ?_⟩
    · intro r2 hr2 hrk
      exact jsO_agree_of_nodup fs hnd p hp r2 hr2 hrk
    · intro f' hf'
      exact snorm_gen_sound_aux (jsSize p.2) p.2 le_rfl
        (wfAFO_mem fs hwfo p hp) f' hf'
  · have h2 := maxO_len_le fs
    have h3 := ((gen_size_le (jsOSize fs)).2 fs le_rfl hwfo).2
    rw [snormP_len, genProps_len]
    simp only [schemaSize, sPropsOSize, sItemsOSize, sListOSize, jsSize]
    omega

/-- Once the accumulator holds the normal form, replaying the same
schema's property bag any number of times changes nothing. -/
theorem mlF_rep_stable (dm : Schema → Schema → Schema) (S : Schema) (G : SProps)
    (hstab : ∀ p ∈ SProps.toList S.propsD,
      G.lookup p.1 = some (snorm p.2) ∧ dm (snorm p.2) p.2 = snorm p.2) :
    ∀ m : Nat, mlF dm (propsConcat (List.replicate m S)) G = G := by
  intro m
  induction m with
  | zero => rfl
  | succ m2 ih =>
      rw [List.replicate_succ]
      show mlF dm (S.propsD.append (propsConcat (List.replicate m2 S))) G = G
      rw [mlF_append, mlF_stable_mapped dm snorm S.propsD G hstab]
      exact ih

/-- Merging `m + 2` copies of the schema synthesized from an array-free
well-formed object rebuilds it as a bare object schema whose property bag
is the entrywise self-merge normal form. -/
theorem deepMergeSchemas_replicate_obj (fs : JsO) (m : Nat)
    (hnd : (JsO.keys fs).Nodup) (hwfo : wfAFO fs = true) :
    deepMergeSchemas (List.replicate (m + 2) (generateJsonSchema (Js.obj fs))) =
      .mk .tObject (some (snormP (genProps fs))) none none none none := by
  have hS : generateJsonSchema (Js.obj fs) =
      .mk .tObject (some (genProps fs)) none none (some (.obj fs)) none := by
    simp [generateJsonSchema]
  have hndP : ((genProps fs).toList.map Prod.fst).Nodup := by
    rw [← sPropsKeys_eq_map, genProps_keys]
    exact hnd
  have hwfvals : ∀ p ∈ SProps.toList (genProps fs), wfS p.2 = true := by
    intro p hp
    rw [genProps_toList] at hp
    obtain ⟨r, hr, rfl⟩ := List.mem_map.1 hp
    exact wfS_gen (jsSize r.2) r.2 le_rfl (wfAFO_mem fs hwfo r hr)
  rw [hS, List.replicate_succ, List.replicate_succ]
  simp only [deepMergeSchemas]
  have hall :
      ((Schema.mk .tObject (some (genProps fs)) none none (some (Js.obj fs)) none ::
          Schema.mk .tObject (some (genProps fs)) none none (some (Js.obj fs)) none ::
          List.replicate m
            (Schema.mk .tObject (some (genProps fs)) none none
              (some (Js.obj fs)) none)).all
        (fun t => t.type == SchemaType.tObject)) = true := by
    rw [List.all_eq_true]
    intro t ht
    have hts : t = Schema.mk .tObject (some (genProps fs)) none none
        (some (Js.obj fs)) none := by
      rcases List.mem_cons.1 ht with h | h
      · exact h
      · rcases List.mem_cons.1 h with h2 | h2
        · exact h2
        · exact List.eq_of_mem_replicate h2
    rw [hts]
    rfl
  rw [if_pos hall]
  have hstab1 : ∀ p ∈ SProps.toList (genProps fs),
      SProps.lookup p.1 (genProps fs) = some p.2 ∧
        deepMergeTwo p.2 p.2 = snorm p.2 :=
    fun p hp => ⟨SProps.lookup_self _ hndP p hp,
      deepMergeTwo_self_snorm p.2 (hwfvals p hp)⟩
  have key : mlF deepMergeTwo
      (propsConcat
        (Schema.mk .tObject (some (genProps fs)) none none (some (Js.obj fs)) none ::
          Schema.mk .tObject (some (genProps fs)) none none (some (Js.obj fs)) none ::
          List.replicate m
            (Schema.mk .tObject (some (genProps fs)) none none
              (some (Js.obj fs)) none)))
      SProps.nil = snormP (genProps fs) := by
    show mlF deepMergeTwo
      ((genProps fs).append
        (propsConcat
          (Schema.mk .tObject (some (genProps fs)) none none (some (Js.obj fs)) none ::
            List.replicate m
              (Schema.mk .tObject (some (genProps fs)) none none
                (some (Js.obj fs)) none))))
      SProps.nil = snormP (genProps fs)
    rw [mlF_append]
    have h1 : mlF deepMergeTwo (genProps fs) SProps.nil = genProps fs := by
      rw [mlF_fresh deepMergeTwo (genProps fs) SProps.nil (fun p hp => rfl) hndP]
      exact SProps.nil_append (genProps fs)
    rw [h1]
    show mlF deepMergeTwo
      ((genProps fs).append
        (propsConcat
          (List.replicate m
            (Schema.mk .tObject (some (genProps fs)) none none
              (some (Js.obj fs)) none))))
      (genProps fs) = snormP (genProps fs)
    rw [mlF_append]
    have h2 : mlF deepMergeTwo (genProps fs) (genProps fs) = snormP (genProps fs) := by
      rw [mlF_to_updAll deepMergeTwo snorm (genProps fs) (genProps fs) hstab1 hndP]
      exact updAll_snorm_append (genProps fs) SProps.nil (fun p hp => rfl) hndP
    rw [h2]
    apply mlF_rep_stable deepMergeTwo
      (Schema.mk .tObject (some (genProps fs)) none none (some (Js.obj fs)) none)
      (snormP (genProps fs)) ?_ m
    intro p hp
    refine ⟨?_, deepMergeTwo_snorm_absorb p.2 (hwfvals p hp)⟩
    rw [snormP_lookup, SProps.lookup_self (genProps fs) hndP p hp]
    rfl
  rw [key]

/-- Merging `m + 2` copies of a non-object schema collapses (through the
deduplication branch) back to the schema itself. -/
theorem deepMergeSchemas_replicate_nonobj (s : Schema) (hne : s.type ≠ .tObject)
    (m : Nat) :
    deepMergeSchemas (List.replicate (m + 2) s) = s := by
  rw [List.replicate_succ, List.replicate_succ]
  simp only [deepMergeSchemas]
  have h0 : (s.type == SchemaType.tObject) = false := by
    rw [beq_eq_false_iff_ne]
    exact hne
  have hall : ((s :: s :: List.replicate m s).all
      (fun t => t.type == SchemaType.tObject)) = false := by
    simp [List.all_cons, h0]
  rw [if_neg (by simp [hall])]
  have hd : dedupe (s :: s :: List.replicate m s) = [s] := by
    rw [← List.replicate_succ, ← List.replicate_succ]
    exact dedupe_replicate s (m + 1)
  rw [hd]

/-- C1, counterexample.  The two-element array `[{a:1}, {a:"x"}]` has all
its members objects, so `generateJsonSchema` samples only the first member
(line 199) and emits `array of {a: integer}` — which the array itself does
not satisfy, since its second member holds a string under `a`.  This
refutes soundness exactly on the case the claim singles out (arrays whose
members are all objects). -/
theorem c1_counterexample :
    satisfies
      (generateJsonSchema
        (.arr (.cons (.obj (.cons "a" (.num 1) .nil))
          (.cons (.obj (.cons "a" (.str "x") .nil)) .nil))))
      (.arr (.cons (.obj (.cons "a" (.num 1) .nil))
        (.cons (.obj (.cons "a" (.str "x") .nil)) .nil))) = false := by decide

/-- C1, amended: soundness of synthesis and merge on array-free
well-formed values (no arrays anywhere, distinct keys at every object
level).  (i) The schema synthesized from such a value `v` is satisfied by
`v` itself.  (ii) For every non-empty sequence of samples all equal to
`v`, the schema obtained by `deepMergeSchemas` over their individually
synthesized schemas is satisfied by every sample in the sequence — for
objects this exercises the object-merge branch, which rebuilds the schema
with every shared property self-merged.  (Unrestricted soundness fails on
arrays: first-member sampling, the counterexample; and merging samples of
different types is likewise unsound, since both `oneOf` wrappers — lines
183-187 and 294-300 — tag the wrapper `type: 'object'`.) -/
theorem c1_synthesis_and_merge_sound_array_free :
    (∀ v : Js, wfAF v = true → satisfies (generateJsonSchema v) v = true) ∧
    (∀ (v : Js) (n : Nat), wfAF v = true → 1 ≤ n →
      ∀ u ∈ List.replicate n v,
        satisfies (deepMergeSchemas ((List.replicate n v).map generateJsonSchema))
          u = true) := by
  constructor
  · exact fun v hwf => gen_satisfies v hwf
  · intro v n hwf hn u hu
    obtain rfl : u = v := List.eq_of_mem_replicate hu
    rw [List.map_replicate]
    cases n with
    | zero => omega
    | succ n1 =>
        cases n1 with
        | zero => exact gen_satisfies u hwf
        | succ n2 =>
            cases u with
            | null =>
                rw [deepMergeSchemas_replicate_nonobj _ (by decide) n2]
                exact gen_satisfies Js.null hwf
            | bool b =>
                rw [deepMergeSchemas_replicate_nonobj _
                  (by simp [generateJsonSchema, Schema.type]) n2]
                exact gen_satisfies (Js.bool b) hwf
            | str s =>
                rw [deepMergeSchemas_replicate_nonobj _
                  (by simp [generateJsonSchema, Schema.type]) n2]
                exact gen_satisfies (Js.str s) hwf
            | num q =>
                rw [deepMergeSchemas_replicate_nonobj _
                  (by cases hq : q.den == 1 <;>
                    simp [generateJsonSchema, hq, Schema.type]) n2]
                exact gen_satisfies (Js.num q) hwf
            | arr xs => simp [wfAF] at hwf
            | obj fs =>
                have hwf2 := hwf
                simp only [wfAF, Bool.and_eq_true, decide_eq_true_eq] at hwf2
                obtain ⟨hnd, hwfo⟩ := hwf2
                rw [deepMergeSchemas_replicate_obj fs n2 hnd hwfo]
                exact merged_obj_satisfies fs hnd hwfo

/-- C1, witness: a one-field object, synthesized and then merged with
itself (two samples). -/
theorem c1_witness :
    satisfies (generateJsonSchema (.obj (.cons "a" (.num 1) .nil)))
      (.obj (.cons "a" (.num 1) .nil)) = true ∧
    satisfies
      (deepMergeSchemas
        ((List.replicate 2 (Js.obj (.cons "a" (.num 1) .nil))).map
          generateJsonSchema))
      (.obj (.cons "a" (.num 1) .nil)) = true :=
  ⟨c1_synthesis_and_merge_sound_array_free.1
      (.obj (.cons "a" (.num 1) .nil)) (by decide),
   c1_synthesis_and_merge_sound_array_free.2
      (.obj (.cons "a" (.num 1) .nil)) 2 (by decide) (by decide)
      (.obj (.cons "a" (.num 1) .nil)) (by decide)⟩
